import Mathlib

/-!
# Server_epoll: the epoll echo/command server

A shallow embedding of `src/eserver.h`, `src/eserver.cpp` and the dispatch loop
of `src/main.cpp`.

* `std::unordered_map<int, ClientData>` is an association list; its iteration
  order (unspecified in C++) is the order of the list.
* `uint64_t` counters are naturals reduced modulo `2^64`; the `int` stored for a
  UDP pseudo-descriptor is obtained by the narrowing conversion `uint64_to_int`.
* System calls issued by a handler are collected in a trace; what the kernel
  answers (accepted descriptor, bytes available, `fcntl`/`epoll_ctl` return
  values, the clock) is an explicit argument.
* Writes to `std::cout`/`std::cerr` are not part of the model.
-/

namespace EpollServer

/-! ## Bytes and strings -/

/-- A `char` of a buffer or of a `std::string`, kept as its code `0..255`. -/
abbrev Byte := Nat

/-- A run of bytes: the filled part of a `char buffer[1024]`, or a `std::string`. -/
abbrev Bytes := List Byte

/-- The bytes of an ASCII string literal of the source. -/
def str (s : String) : Bytes := s.toList.map Char.toNat

/-- Decimal output of an unsigned integer, as `operator<<` of a stream prints it. -/
def decimal (n : Nat) : Bytes := str (toString n)

/-! ## Machine integers -/

/-- The operation `++x` on a `uint64_t`. -/
def uint64_inc (x : Nat) : Nat := (x + 1) % 2 ^ 64

/-- The operation `--x` on a `uint64_t`. -/
def uint64_dec (x : Nat) : Nat := (x + 2 ^ 64 - 1) % 2 ^ 64

/-- Conversion of an `int` operand to `uint64_t` (usual arithmetic conversions). -/
def int_to_uint64 (i : Int) : Nat := (i % 2 ^ 64).toNat

/-- Subtraction `a - b` of two `uint64_t` values. -/
def uint64_sub (a b : Nat) : Nat := (a + 2 ^ 64 - b % 2 ^ 64) % 2 ^ 64

/-- Narrowing of a `uint64_t` to a 32-bit `int`: the low 32 bits, two's complement. -/
def uint64_to_int (x : Nat) : Int :=
  if x % 2 ^ 32 < 2 ^ 31 then ((x % 2 ^ 32 : Nat) : Int) else ((x % 2 ^ 32 : Nat) : Int) - 2 ^ 32

/-! ## Data model (`eserver.h`) -/

/-- The two fields of `sockaddr_in` the server reads: `sin_addr.s_addr` and `sin_port`. -/
structure sockaddr_in where
  s_addr : Nat
  sin_port : Nat
deriving DecidableEq, Repr

/-- The record `ClientData` of `eserver.h`. -/
structure ClientData where
  address : sockaddr_in
  address_len : Nat
  fd : Int
  is_tcp : Bool
deriving DecidableEq, Repr

/-- The type of `client_map`: pairs of key and value, in iteration order. -/
abbrev ClientMap := List (Int × ClientData)

/-- The keys of the map, in iteration order. -/
def map_keys (m : ClientMap) : List Int := m.map Prod.fst

/-- Lookup of a key: `client_map.find(k)`. -/
def map_find (m : ClientMap) (k : Int) : Option ClientData :=
  match m with
  | [] => none
  | p :: rest => if p.1 = k then some p.2 else map_find rest k

/-- The assignment `client_map[k] = v`: replaces the value of an existing key,
inserts the pair otherwise. -/
def map_assign (m : ClientMap) (k : Int) (v : ClientData) : ClientMap :=
  if k ∈ map_keys m then m.map (fun p => if p.1 = k then (p.1, v) else p) else (k, v) :: m

/-- The call `client_map.erase(k)`. -/
def map_erase (m : ClientMap) (k : Int) : ClientMap :=
  match m with
  | [] => []
  | p :: rest => if p.1 = k then map_erase rest k else p :: map_erase rest k

/-- The mutable part of class `EServer` together with its three constants. -/
structure EServer where
  MAX_EVENTS : Nat
  TCP_PORT : Nat
  UDP_PORT : Nat
  client_map : ClientMap
  total_connections : Nat
  current_connections : Nat
deriving DecidableEq, Repr

/-- The constructor `EServer::EServer(events, tcpPort, udpPort)`. -/
def EServer.new (events tcpPort udpPort : Nat) : EServer :=
  { MAX_EVENTS := events, TCP_PORT := tcpPort, UDP_PORT := udpPort,
    client_map := [], total_connections := 0, current_connections := 0 }

/-- The constant `UDP_CLIENT_FD_BASE` of `eserver.h`. -/
def UDP_CLIENT_FD_BASE : Int := -1000

/-! ## System calls and results -/

/-- A system call issued by the server, with the arguments that matter. -/
inductive Syscall where
  | fcntl_setfl (fd : Int)
  | epoll_ctl_add (epoll_fd fd : Int)
  | epoll_ctl_del (epoll_fd fd : Int)
  | send (fd : Int) (data : Bytes)
  | sendto (sock : Int) (data : Bytes) (dest : sockaddr_in) (dest_len : Nat)
  | shutdown (fd : Int)
  | close (fd : Int)
deriving DecidableEq, Repr

/-- How a handler ends: it returns (with the new server state), a
`std::logic_error` leaves it (with the state of the server object at the
`throw`), or the process ends in `exit(code)`. -/
inductive Status where
  | returned (s : EServer)
  | thrown (what : String) (s : EServer)
  | exited (code : Int)
deriving DecidableEq, Repr

/-- The calls a handler issued, in order, and how it ended. -/
structure Result where
  trace : List Syscall
  status : Status
deriving DecidableEq, Repr

/-- What `handle_command` gives back: the response string, or the process has
ended inside `handle_shutdown_command`. -/
inductive CommandResult where
  | response (r : Bytes)
  | exited (trace : List Syscall) (code : Int)
deriving DecidableEq, Repr

/-- The kernel's answers during one `handle_tcp_connection`: the value and peer
address of `accept`, the two `fcntl` values of `setnonblocking`, and the value
of `epoll_ctl(EPOLL_CTL_ADD)`. -/
structure AcceptReply where
  client_fd : Int
  client_address : sockaddr_in
  client_len : Nat
  getfl : Int
  setfl : Int
  epoll_add : Int
deriving DecidableEq, Repr

/-- The calls `read(fd, buffer, count)` and `recvfrom(fd, buffer, count, ...)`:
`avail` is what the kernel holds for the descriptor (`none`: the call fails
with `-1`; the empty run: end of stream, or an empty datagram). The value is
the pair of the returned count and the bytes stored in the buffer. -/
def sys_read (avail : Option Bytes) (count : Nat) : Int × Bytes :=
  match avail with
  | none => (-1, [])
  | some d => (((d.take count).length : Nat), d.take count)

/-! ## `eserver.cpp` -/

/-- The function `EServer::setnonblocking`, given the two `fcntl` values: the
calls issued, and the message of the `std::logic_error` thrown, if any. -/
def setnonblocking (sockfd : Int) (getfl setfl : Int) : List Syscall × Option String :=
  if getfl = -1 then ([], some "fcntl F_GETFL")
  else if setfl = -1 then ([.fcntl_setfl sockfd], some "fcntl F_SETFL O_NONBLOCK")
  else ([.fcntl_setfl sockfd], none)

/-- The function `EServer::handle_time_command`: `clock` is `none` when
`localtime` gives a null pointer, and the string `strftime` writes otherwise. -/
def handle_time_command (clock : Option Bytes) : Bytes :=
  match clock with
  | none => str "Error getting time"
  | some t => t

/-- The function `EServer::handle_stats_command`. -/
def handle_stats_command (s : EServer) : Bytes :=
  str "Total connections: " ++ decimal s.total_connections
    ++ str ", Current connections: " ++ decimal s.current_connections

/-- The loop of `handle_shutdown_command` over `client_map`. -/
def shutdown_loop (m : ClientMap) : List Syscall :=
  match m with
  | [] => []
  | p :: rest => Syscall.shutdown p.1 :: Syscall.close p.1 :: shutdown_loop rest

/-- The function `EServer::handle_shutdown_command`: the calls issued before
`exit(0)`. -/
def handle_shutdown_command (s : EServer) (epoll_fd : Int) : List Syscall :=
  shutdown_loop s.client_map ++ [Syscall.close epoll_fd]

/-- The function `EServer::handle_command`. -/
def handle_command (s : EServer) (command : Bytes) (epoll_fd : Int)
    (clock : Option Bytes) : CommandResult :=
  if command = str "/time" then
    .response (handle_time_command clock ++ str "\n")
  else if command = str "/stats" then
    .response (handle_stats_command s ++ str "\n")
  else if command = str "/shutdown" then
    .exited (handle_shutdown_command s epoll_fd) 0
  else
    .response (str "Unknown command" ++ str "\n")

/-- The local `new_client` of `handle_tcp_connection`. -/
def new_tcp_client (a : AcceptReply) : ClientData :=
  { address := a.client_address, address_len := a.client_len,
    fd := a.client_fd, is_tcp := true }

/-- The function `EServer::handle_tcp_connection`. -/
def handle_tcp_connection (s : EServer) (epoll_fd : Int) (a : AcceptReply) : Result :=
  if a.client_fd < 0 then
    ⟨[], .thrown "Error accepting connection" s⟩
  else
    match setnonblocking a.client_fd a.getfl a.setfl with
    | (tr, some what) => ⟨tr, .thrown what s⟩
    | (tr, none) =>
      let new_client := new_tcp_client a
      let m := map_assign s.client_map a.client_fd new_client
      if a.epoll_add < 0 then
        ⟨tr ++ [.epoll_ctl_add epoll_fd a.client_fd, .close a.client_fd],
          .returned { s with client_map := map_erase m a.client_fd }⟩
      else
        ⟨tr ++ [.epoll_ctl_add epoll_fd a.client_fd],
          .returned { s with client_map := m,
                             total_connections := uint64_inc s.total_connections,
                             current_connections := uint64_inc s.current_connections }⟩

/-- The string `std::string command(buffer)`: the buffer up to its first NUL. -/
def c_string (buffer : Bytes) : Bytes := buffer.takeWhile (fun b => b ≠ 0)

/-- The teardown of both the `bytes_read == 0` and the error branch of
`handle_tcp_data`. -/
def tcp_teardown (s : EServer) (epoll_fd fd : Int) : Result :=
  ⟨[.epoll_ctl_del epoll_fd fd, .close fd],
    .returned { s with client_map := map_erase s.client_map fd,
                       current_connections := uint64_dec s.current_connections }⟩

/-- The function `EServer::handle_tcp_data` for the event descriptor `fd`. -/
def handle_tcp_data (s : EServer) (epoll_fd fd : Int) (avail : Option Bytes)
    (clock : Option Bytes) : Result :=
  let r := sys_read avail 1023
  let bytes_read := r.1
  let buffer := r.2
  if bytes_read > 0 then
    if buffer.head? = some 47 then
      match handle_command s (c_string buffer) epoll_fd clock with
      | .response response => ⟨[.send fd response], .returned s⟩
      | .exited tr code => ⟨tr, .exited code⟩
    else
      ⟨[.send fd buffer], .returned s⟩
  else if bytes_read = 0 then
    tcp_teardown s epoll_fd fd
  else
    tcp_teardown s epoll_fd fd

/-- The search loop of `handle_udp_data` over `client_map`: the key of the
first entry that is not TCP and has the sender's address and port. -/
def find_udp_client (m : ClientMap) (client_address : sockaddr_in) : Option Int :=
  match m with
  | [] => none
  | p :: rest =>
    if p.2.is_tcp = false ∧ p.2.address.s_addr = client_address.s_addr
        ∧ p.2.address.sin_port = client_address.sin_port then some p.1
    else find_udp_client rest client_address

/-- The local `new_client` of `handle_udp_data`. -/
def new_udp_client (client_address : sockaddr_in) (client_len : Nat) (udp_client_fd : Int) :
    ClientData :=
  { address := client_address, address_len := client_len,
    fd := udp_client_fd, is_tcp := false }

/-- The second half of `handle_udp_data` (search, then creation when the search
fails): the final value of the local `udp_client_fd` and the new state. -/
def udp_session (s : EServer) (client_address : sockaddr_in) (client_len : Nat) :
    Int × EServer :=
  match find_udp_client s.client_map client_address with
  | some fd => (fd, s)
  | none =>
    let total := uint64_inc s.total_connections
    let current := uint64_inc s.current_connections
    let udp_client_fd := uint64_to_int (uint64_sub (int_to_uint64 UDP_CLIENT_FD_BASE) total)
    let new_client := new_udp_client client_address client_len udp_client_fd
    (udp_client_fd,
      { s with total_connections := total, current_connections := current,
               client_map := map_assign s.client_map udp_client_fd new_client })

/-- The function `EServer::handle_udp_data`. -/
def handle_udp_data (s : EServer) (epoll_fd udp_socket : Int) (avail : Option Bytes)
    (client_address : sockaddr_in) (client_len : Nat) (clock : Option Bytes) : Result :=
  let r := sys_read avail 1023
  let bytes_received := r.1
  let buffer := r.2
  if bytes_received > 0 then
    if buffer.head? = some 47 then
      match handle_command s (c_string buffer) epoll_fd clock with
      | .response response =>
        ⟨[.sendto udp_socket response client_address client_len],
          .returned (udp_session s client_address client_len).2⟩
      | .exited tr code => ⟨tr, .exited code⟩
    else
      ⟨[.sendto udp_socket buffer client_address client_len],
        .returned (udp_session s client_address client_len).2⟩
  else
    ⟨[], .returned s⟩

/-! ## The dispatch loop of `main.cpp` -/

/-- The flag `EPOLLERR` of `<sys/epoll.h>`. -/
def EPOLLERR : Nat := 8

/-- The flag `EPOLLHUP` of `<sys/epoll.h>`. -/
def EPOLLHUP : Nat := 16

/-- The flag `EPOLLIN` of `<sys/epoll.h>`. -/
def EPOLLIN : Nat := 1

/-- The fields `events` and `data.fd` of a ready `epoll_event`. -/
structure epoll_event where
  events : Nat
  fd : Int
deriving DecidableEq, Repr

/-- The kernel's answers to the calls made while one ready event is handled. -/
structure Kernel where
  accept : AcceptReply
  avail : Option Bytes
  peer : sockaddr_in
  peer_len : Nat
  clock : Option Bytes
deriving DecidableEq, Repr

/-- The body of the `for` loop of `main` for one ready event. -/
def dispatch (tcp_socket udp_socket epoll_fd : Int) (s : EServer)
    (ev : epoll_event) (k : Kernel) : Result :=
  if ev.events &&& EPOLLERR ≠ 0 ∨ ev.events &&& EPOLLHUP ≠ 0 then
    ⟨[.close ev.fd], .returned s⟩
  else if ev.fd = tcp_socket then
    handle_tcp_connection s epoll_fd k.accept
  else if ev.fd = udp_socket then
    handle_udp_data s epoll_fd udp_socket k.avail k.peer k.peer_len k.clock
  else
    handle_tcp_data s epoll_fd ev.fd k.avail k.clock

/-- The `for` loop of `main` over the events of one `epoll_wait`. An exception
or `exit` abandons the remaining events. -/
def for_events (tcp_socket udp_socket epoll_fd : Int) (s : EServer) :
    List (epoll_event × Kernel) → Result
  | [] => ⟨[], .returned s⟩
  | p :: rest =>
    match dispatch tcp_socket udp_socket epoll_fd s p.1 p.2 with
    | ⟨tr, .returned s1⟩ =>
      let r := for_events tcp_socket udp_socket epoll_fd s1 rest
      ⟨tr ++ r.trace, r.status⟩
    | r => r

/-- What one call of `epoll_wait` gives: a batch of ready events, `-1` with
`errno == EINTR`, or `-1` with another error. -/
inductive WaitResult where
  | ready (evs : List (epoll_event × Kernel))
  | eintr
  | failed
deriving DecidableEq, Repr

/-- The loop `while (true)` of `main`, run against a finite script of
`epoll_wait` results; `returned s` means the loop is still running in state `s`
when the script is used up. -/
def while_true (tcp_socket udp_socket epoll_fd : Int) (s : EServer) :
    List WaitResult → Result
  | [] => ⟨[], .returned s⟩
  | .eintr :: ws => while_true tcp_socket udp_socket epoll_fd s ws
  | .failed :: _ => ⟨[], .thrown "epoll_wait" s⟩
  | .ready evs :: ws =>
    match for_events tcp_socket udp_socket epoll_fd s evs with
    | ⟨tr, .returned s1⟩ =>
      let r := while_true tcp_socket udp_socket epoll_fd s1 ws
      ⟨tr ++ r.trace, r.status⟩
    | r => r

/-- How `main` stands after a script: still in its loop, returned, or the
process has exited inside a handler. -/
inductive MainStatus where
  | running (s : EServer)
  | returned (code : Int)
  | exited (code : Int)
deriving DecidableEq, Repr

/-- The calls of the handler `catch (std::logic_error&)` of `main`. -/
def catch_block (tcp_socket udp_socket epoll_fd : Int) : List Syscall :=
  (if tcp_socket ≠ -1 then [Syscall.close tcp_socket] else [])
    ++ (if udp_socket ≠ -1 then [Syscall.close udp_socket] else [])
    ++ (if epoll_fd ≠ -1 then [Syscall.close epoll_fd] else [])

/-- The function `main` from the entry of its loop on (the sockets are set up
and registered): the `try` block around the loop and the `catch` handler. -/
def main_loop (tcp_socket udp_socket epoll_fd : Int) (s : EServer)
    (script : List WaitResult) : List Syscall × MainStatus :=
  match while_true tcp_socket udp_socket epoll_fd s script with
  | ⟨tr, .returned s1⟩ => (tr, .running s1)
  | ⟨tr, .exited code⟩ => (tr, .exited code)
  | ⟨tr, .thrown _ _⟩ => (tr ++ catch_block tcp_socket udp_socket epoll_fd, .returned 1)

/-! ## Runs of handler steps -/

/-- One invocation of a handler, with the kernel's answers. -/
inductive Event where
  | accept (epoll_fd : Int) (a : AcceptReply)
  | tcp_data (epoll_fd fd : Int) (avail : Option Bytes) (clock : Option Bytes)
  | udp_data (epoll_fd udp_socket : Int) (avail : Option Bytes)
      (client_address : sockaddr_in) (client_len : Nat) (clock : Option Bytes)
deriving DecidableEq, Repr

/-- The handler call an event stands for. -/
def Event.handle (s : EServer) : Event → Result
  | .accept epoll_fd a => handle_tcp_connection s epoll_fd a
  | .tcp_data epoll_fd fd avail clock => handle_tcp_data s epoll_fd fd avail clock
  | .udp_data epoll_fd udp_socket avail client_address client_len clock =>
    handle_udp_data s epoll_fd udp_socket avail client_address client_len clock

/-- A sequence of handler calls, each of which returns: the final state. -/
def run (s : EServer) : List Event → Option EServer
  | [] => some s
  | e :: es =>
    match (e.handle s).status with
    | .returned s1 => run s1 es
    | _ => none

/-- A sequence of handler calls, each allowed by the guard `G` in the state it
meets, each returning, and each leaving `total_connections` at most `B`. -/
def run_guarded (G : EServer → Event → Bool) (B : Nat) (s : EServer) :
    List Event → Option EServer
  | [] => some s
  | e :: es =>
    if G s e then
      match (e.handle s).status with
      | .returned s1 =>
        if s1.total_connections ≤ B then run_guarded G B s1 es else none
      | _ => none
    else none

/-- States the server reaches from a freshly constructed one through handler
calls that return. -/
def Reachable (s : EServer) : Prop :=
  ∃ events tcpPort udpPort es, run (EServer.new events tcpPort udpPort) es = some s

/-- States reached through handler calls allowed by `G` that keep
`total_connections` at most `B`. -/
def ReachableWithin (G : EServer → Event → Bool) (B : Nat) (s : EServer) : Prop :=
  ∃ events tcpPort udpPort es,
    run_guarded G B (EServer.new events tcpPort udpPort) es = some s

/-- The guard that allows every event. -/
def any_event : EServer → Event → Bool := fun _ _ => true

/-- The largest `total_connections` for which `UDP_CLIENT_FD_BASE - total_connections`
still fits a 32-bit `int`. -/
def NO_WRAP : Nat := 2 ^ 31 - 1000

/-! ## Observations on traces -/

/-- The payload bytes a trace transmits: the data of its `send` and `sendto`
calls, in order. -/
def sent_payload : List Syscall → Bytes
  | [] => []
  | .send _ data :: rest => data ++ sent_payload rest
  | .sendto _ data _ _ :: rest => data ++ sent_payload rest
  | _ :: rest => sent_payload rest

/-- Whether a call transmits data (`send` or `sendto`). -/
def Syscall.transmits : Syscall → Bool
  | .send _ _ => true
  | .sendto _ _ _ _ => true
  | _ => false

/-! ## Conditions on the kernel's answers -/

/-- A successful accept with successful registration: `accept` gives a
descriptor, both `fcntl` calls and `epoll_ctl` succeed. -/
def accept_succeeds (a : AcceptReply) : Prop :=
  0 ≤ a.client_fd ∧ a.getfl ≠ -1 ∧ a.setfl ≠ -1 ∧ ¬ a.epoll_add < 0

instance (a : AcceptReply) : Decidable (accept_succeeds a) := by
  unfold accept_succeeds
  infer_instance

/-- The guard for events "from other peers" than the UDP sender `sender`: an
accept, data on a real (non-negative) descriptor, or a datagram whose address
or port differs from the sender's. -/
def other_peer (sender : sockaddr_in) : EServer → Event → Bool
  | _, .accept _ _ => true
  | _, .tcp_data _ fd _ _ => decide (0 ≤ fd)
  | _, .udp_data _ _ _ client_address _ _ =>
    !decide (client_address.s_addr = sender.s_addr ∧ client_address.sin_port = sender.sin_port)

/-- The guard of the counter/registry agreement: `accept` gives a descriptor
that is not a key of the registry, and `handle_tcp_data` is called for a key of
the registry. -/
def registry_guard : EServer → Event → Bool
  | s, .accept _ a => decide (a.client_fd ∉ map_keys s.client_map)
  | s, .tcp_data _ fd _ _ => decide (fd ∈ map_keys s.client_map)
  | _, .udp_data _ _ _ _ _ _ => true

/-- The test of the search loop of `handle_udp_data`: the entry is not TCP and
has the sender's address and port. -/
def same_udp_sender (client_address : sockaddr_in) (p : Int × ClientData) : Prop :=
  p.2.is_tcp = false ∧ p.2.address.s_addr = client_address.s_addr
    ∧ p.2.address.sin_port = client_address.sin_port

instance (client_address : sockaddr_in) (p : Int × ClientData) :
    Decidable (same_udp_sender client_address p) := by
  unfold same_udp_sender
  infer_instance

/-- The registry invariant that holds as long as `total_connections` has not
passed `NO_WRAP`: keys are unique, every entry stores its key as `fd`, TCP
entries have non-negative keys, UDP entries have keys between
`UDP_CLIENT_FD_BASE - total` and `UDP_CLIENT_FD_BASE - 1`, and no two UDP
entries have the same address and port. -/
structure MapInv (m : ClientMap) (total : Nat) : Prop where
  keys_nodup : (map_keys m).Nodup
  fd_eq : ∀ p ∈ m, p.2.fd = p.1
  tcp_range : ∀ p ∈ m, p.2.is_tcp = true → 0 ≤ p.1
  udp_range : ∀ p ∈ m, p.2.is_tcp = false → -1000 - (total : Int) ≤ p.1 ∧ p.1 < -1000
  udp_unique : ∀ p ∈ m, ∀ q ∈ m, p.2.is_tcp = false → same_udp_sender p.2.address q → p = q
  total_le : total ≤ NO_WRAP

/-- The part of the registry invariant that does not depend on the size of
`total_connections`: keys are unique, every entry stores its key as `fd`, and
TCP entries have non-negative keys. -/
structure BasicInv (m : ClientMap) : Prop where
  keys_nodup : (map_keys m).Nodup
  fd_eq : ∀ p ∈ m, p.2.fd = p.1
  tcp_range : ∀ p ∈ m, p.2.is_tcp = true → 0 ≤ p.1

/-- The registry invariant of a server state. -/
def Inv (s : EServer) : Prop := MapInv s.client_map s.total_connections

/-- The counter/registry agreement together with the registry invariant. -/
def Agree (s : EServer) : Prop :=
  Inv s ∧ s.current_connections = s.client_map.length
    ∧ s.current_connections ≤ s.total_connections

/-! ## Sample inputs -/

/-- A successful `accept` of a peer at 127.0.0.1 with the given descriptor and port. -/
def sample_accept (fd : Int) (port : Nat) : AcceptReply :=
  { client_fd := fd, client_address := ⟨16777343, port⟩, client_len := 16,
    getfl := 2, setfl := 0, epoll_add := 0 }

/-- The registry entry `handle_tcp_connection` stores for `sample_accept fd port`. -/
def sample_client (fd : Int) (port : Nat) : ClientData :=
  { address := ⟨16777343, port⟩, address_len := 16, fd := fd, is_tcp := true }

/-- The server of `main` after three peers have connected on descriptors 6, 7, 8. -/
def three_peers : EServer :=
  { MAX_EVENTS := 64, TCP_PORT := 12345, UDP_PORT := 12346,
    client_map := [(8, sample_client 8 50003), (7, sample_client 7 50002),
      (6, sample_client 6 50001)],
    total_connections := 3, current_connections := 3 }

/-- A failing `accept`: the call gives `-1`. -/
def failed_accept : AcceptReply :=
  { client_fd := -1, client_address := ⟨0, 0⟩, client_len := 16,
    getfl := 0, setfl := 0, epoll_add := 0 }

/-- The kernel's answers for a readable event on the listening socket. -/
def kernel_accept (a : AcceptReply) : Kernel :=
  { accept := a, avail := none, peer := ⟨0, 0⟩, peer_len := 16, clock := none }

/-- The kernel's answers for a readable event with the given pending bytes. -/
def kernel_data (avail : Option Bytes) (peer : sockaddr_in) : Kernel :=
  { accept := failed_accept, avail := avail, peer := peer, peer_len := 16, clock := none }

/-- The address 127.0.0.1 with port 4242 of a UDP sender. -/
def sample_sender : sockaddr_in := ⟨16777343, 4242⟩

/-- The server of `main` after a peer connected on descriptor 6, the sample
sender sent a datagram, and a peer connected on descriptor 7. -/
def mixed_state : EServer :=
  { MAX_EVENTS := 64, TCP_PORT := 12345, UDP_PORT := 12346,
    client_map := [(7, sample_client 7 50002),
      (-1002, new_udp_client sample_sender 16 (-1002)), (6, sample_client 6 50001)],
    total_connections := 3, current_connections := 3 }

/-- The handler calls that lead to `mixed_state`. -/
def mixed_run : List Event :=
  [Event.accept 5 (sample_accept 6 50001),
    Event.udp_data 5 4 (some [104, 105]) sample_sender 16 none,
    Event.accept 5 (sample_accept 7 50002)]

/-- The handler calls of `n` rounds in which a peer connects on descriptor 6
and then closes its connection. -/
def churn : Nat → List Event
  | 0 => []
  | n + 1 =>
    Event.accept 5 (sample_accept 6 50001) :: Event.tcp_data 5 6 (some []) none :: churn n

/-- The handler calls of 2147482648 connect/close rounds followed by one
datagram of the sample sender. -/
def wrap_run : List Event :=
  churn 2147482648 ++ [Event.udp_data 5 4 (some [104, 105]) sample_sender 16 none]

/-- The state `wrap_run` leads to. -/
def wrapped_state : EServer :=
  { MAX_EVENTS := 64, TCP_PORT := 12345, UDP_PORT := 12346,
    client_map := [(2147483647, new_udp_client sample_sender 16 2147483647)],
    total_connections := 2147482649, current_connections := 1 }

/-- Events of other peers between two datagrams of the sample sender: a peer
connects on descriptor 6, another sender's datagram arrives, the peer on
descriptor 6 closes its connection. -/
def between_run : List Event :=
  [Event.accept 5 (sample_accept 6 50001),
    Event.udp_data 5 4 (some [121, 111]) ⟨16777343, 4243⟩ 16 none,
    Event.tcp_data 5 6 (some []) none]

/-- The state after the sample sender's first datagram to a fresh server. -/
def session_state : EServer :=
  { MAX_EVENTS := 64, TCP_PORT := 12345, UDP_PORT := 12346,
    client_map := [(-1001, new_udp_client sample_sender 16 (-1001))],
    total_connections := 1, current_connections := 1 }

/-- The state `between_run` leads to from `session_state`. -/
def later_state : EServer :=
  { MAX_EVENTS := 64, TCP_PORT := 12345, UDP_PORT := 12346,
    client_map := [(-1003, new_udp_client ⟨16777343, 4243⟩ 16 (-1003)),
      (-1001, new_udp_client sample_sender 16 (-1001))],
    total_connections := 3, current_connections := 2 }

/-- Three successful accepts, on descriptors 6, 7 and 8. -/
def three_accepts : List AcceptReply :=
  [sample_accept 6 50001, sample_accept 7 50002, sample_accept 8 50003]

/-- Another UDP sender: 127.0.0.1, port 4243. -/
def other_sender : sockaddr_in := ⟨16777343, 4243⟩

/-- The sample sender's datagram, `2^32 - 1` connect/close rounds of a TCP
peer, and a datagram of the other sender. -/
def overwrite_run : List Event :=
  Event.udp_data 5 4 (some [104, 105]) sample_sender 16 none
    :: (churn 4294967295 ++ [Event.udp_data 5 4 (some [121, 111]) other_sender 16 none])

/-- The state `overwrite_run` leads to: the other sender's entry has taken the
key -1001 of the sample sender's entry. -/
def overwritten_state : EServer :=
  { MAX_EVENTS := 64, TCP_PORT := 12345, UDP_PORT := 12346,
    client_map := [(-1001, new_udp_client other_sender 16 (-1001))],
    total_connections := 4294967297, current_connections := 2 }

/-! ## Theorems -/

/-! ### Reading and the command line -/

theorem sys_read_some (d : Bytes) (h : d.length ≤ 1023) :
    sys_read (some d) 1023 = ((d.length : Int), d) := by
  simp [sys_read, List.take_of_length_le h]

theorem head_ne_nil {d : Bytes} {b : Byte} (h : d.head? = some b) : d ≠ [] := by
  intro hd
  simp [hd] at h

theorem length_pos_int {d : Bytes} (h : d ≠ []) : ((d.length : Nat) : Int) > 0 := by
  have : 0 < d.length := List.length_pos.mpr h
  omega

theorem c_string_no_nul (buffer : Bytes) (h : 0 ∉ buffer) : c_string buffer = buffer := by
  unfold c_string
  rw [List.takeWhile_eq_self_iff]
  intro b hb
  have : b ≠ 0 := fun hb0 => h (hb0 ▸ hb)
  simpa using this

theorem c_string_at_nul (pre post : Bytes) (h : 0 ∉ pre) :
    c_string (pre ++ 0 :: post) = pre := by
  induction pre with
  | nil => simp [c_string]
  | cons b pre ih =>
    have hb : b ≠ 0 := fun hb0 => h (by simp [hb0])
    have hpre : 0 ∉ pre := fun hp => h (List.mem_cons_of_mem _ hp)
    have := ih hpre
    simp only [c_string] at this ⊢
    rw [List.cons_append, List.takeWhile_cons, this]
    simp [hb]

theorem head_of_c_string {buffer cmd : Bytes} {b : Byte} (h : c_string buffer = b :: cmd) :
    buffer.head? = some b := by
  cases buffer with
  | nil => simp [c_string] at h
  | cons x rest =>
    simp only [c_string, List.takeWhile_cons] at h
    split at h
    · simp only [List.cons.injEq] at h
      simp [h.1]
    · simp at h

/-- C1 (echo). For every byte sequence of at most 1023 bytes that does not
begin with `/` (NUL bytes allowed), the bytes `handle_tcp_data` and
`handle_udp_data` transmit are exactly the bytes received; when the sequence is
not empty each handler issues exactly one call, `send` on the same descriptor
resp. `sendto` to the sender's address, carrying exactly those bytes, and the
TCP handler leaves the server state as it was. -/
theorem echo_exact (s : EServer) (epoll_fd fd udp_socket : Int) (data : Bytes)
    (peer : sockaddr_in) (peer_len : Nat) (clock : Option Bytes)
    (hlen : data.length ≤ 1023) (hcmd : data.head? ≠ some 47) :
    sent_payload (handle_tcp_data s epoll_fd fd (some data) clock).trace = data
    ∧ sent_payload
        (handle_udp_data s epoll_fd udp_socket (some data) peer peer_len clock).trace = data
    ∧ (data ≠ [] →
        handle_tcp_data s epoll_fd fd (some data) clock
          = ⟨[Syscall.send fd data], Status.returned s⟩
        ∧ (handle_udp_data s epoll_fd udp_socket (some data) peer peer_len clock).trace
          = [Syscall.sendto udp_socket data peer peer_len]) := by
  by_cases hd : data = []
  · subst hd
    simp [handle_tcp_data, handle_udp_data, sys_read, tcp_teardown, sent_payload]
  · have hpos := length_pos_int hd
    simp [handle_tcp_data, handle_udp_data, sys_read_some data hlen, hpos, hcmd, sent_payload]

/-- Witness of C1: a four-byte payload with an embedded NUL is echoed unchanged on both transports. -/
theorem echo_exact_witness :
    sent_payload (handle_tcp_data (EServer.new 64 12345 12346) 5 7 (some [104, 0, 105, 10])
        none).trace = [104, 0, 105, 10]
    ∧ sent_payload (handle_udp_data (EServer.new 64 12345 12346) 5 4 (some [104, 0, 105, 10])
        ⟨16777343, 4242⟩ 16 none).trace = [104, 0, 105, 10]
    ∧ (([104, 0, 105, 10] : Bytes) ≠ [] →
        handle_tcp_data (EServer.new 64 12345 12346) 5 7 (some [104, 0, 105, 10]) none
          = ⟨[Syscall.send 7 [104, 0, 105, 10]], Status.returned (EServer.new 64 12345 12346)⟩
        ∧ (handle_udp_data (EServer.new 64 12345 12346) 5 4 (some [104, 0, 105, 10])
            ⟨16777343, 4242⟩ 16 none).trace
          = [Syscall.sendto 4 [104, 0, 105, 10] ⟨16777343, 4242⟩ 16]) :=
  echo_exact (EServer.new 64 12345 12346) 5 7 4 [104, 0, 105, 10] ⟨16777343, 4242⟩ 16 none
    (by decide) (by decide)

/-! ### Commands -/

theorem handle_command_unknown (s : EServer) (command : Bytes) (epoll_fd : Int)
    (clock : Option Bytes) (h1 : command ≠ str "/time") (h2 : command ≠ str "/stats")
    (h3 : command ≠ str "/shutdown") :
    handle_command s command epoll_fd clock
      = CommandResult.response (str "Unknown command" ++ [10]) := by
  simp only [handle_command, h1, h2, h3, if_false]
  rfl

/-- C3 (unknown command). For a received buffer of at most 1023 bytes whose
first byte is `/`, the command line is the buffer up to its first NUL (the whole
buffer when it has none); when that line is none of `/time`, `/stats`,
`/shutdown`, the response is `Unknown command` followed by one newline, the TCP
handler sends exactly that and returns the server state unchanged, and the UDP
handler sends exactly that and leaves the state that the tracking of the sender
alone produces. -/
theorem unknown_command (s : EServer) (epoll_fd fd udp_socket : Int) (buffer : Bytes)
    (peer : sockaddr_in) (peer_len : Nat) (clock : Option Bytes)
    (hlen : buffer.length ≤ 1023) (hslash : buffer.head? = some 47)
    (h1 : c_string buffer ≠ str "/time") (h2 : c_string buffer ≠ str "/stats")
    (h3 : c_string buffer ≠ str "/shutdown") :
    (0 ∉ buffer → c_string buffer = buffer)
    ∧ (∀ pre post : Bytes, buffer = pre ++ 0 :: post → 0 ∉ pre → c_string buffer = pre)
    ∧ handle_command s (c_string buffer) epoll_fd clock
        = CommandResult.response (str "Unknown command" ++ [10])
    ∧ handle_tcp_data s epoll_fd fd (some buffer) clock
        = ⟨[Syscall.send fd (str "Unknown command" ++ [10])], Status.returned s⟩
    ∧ handle_udp_data s epoll_fd udp_socket (some buffer) peer peer_len clock
        = ⟨[Syscall.sendto udp_socket (str "Unknown command" ++ [10]) peer peer_len],
            Status.returned (udp_session s peer peer_len).2⟩ := by
  have hcmd := handle_command_unknown s (c_string buffer) epoll_fd clock h1 h2 h3
  have hpos := length_pos_int (head_ne_nil hslash)
  refine ⟨c_string_no_nul buffer, ?_, hcmd, ?_, ?_⟩
  · intro pre post hb hpre
    rw [hb]
    exact c_string_at_nul pre post hpre
  · simp [handle_tcp_data, sys_read_some buffer hlen, hpos, hslash, hcmd]
  · simp [handle_udp_data, sys_read_some buffer hlen, hpos, hslash, hcmd]

/-- Witness of C3: the buffer `/time` followed by a newline is an unknown command. -/
theorem unknown_command_witness :
    (0 ∉ str "/time\n" → c_string (str "/time\n") = str "/time\n")
    ∧ (∀ pre post : Bytes, str "/time\n" = pre ++ 0 :: post → 0 ∉ pre →
        c_string (str "/time\n") = pre)
    ∧ handle_command (EServer.new 64 12345 12346) (c_string (str "/time\n")) 5 none
        = CommandResult.response (str "Unknown command" ++ [10])
    ∧ handle_tcp_data (EServer.new 64 12345 12346) 5 7 (some (str "/time\n")) none
        = ⟨[Syscall.send 7 (str "Unknown command" ++ [10])],
            Status.returned (EServer.new 64 12345 12346)⟩
    ∧ handle_udp_data (EServer.new 64 12345 12346) 5 4 (some (str "/time\n"))
          ⟨16777343, 4242⟩ 16 none
        = ⟨[Syscall.sendto 4 (str "Unknown command" ++ [10]) ⟨16777343, 4242⟩ 16],
            Status.returned (udp_session (EServer.new 64 12345 12346) ⟨16777343, 4242⟩ 16).2⟩ :=
  unknown_command (EServer.new 64 12345 12346) 5 7 4 (str "/time\n") ⟨16777343, 4242⟩ 16 none
    (by decide) (by decide) (by decide) (by decide) (by decide)

theorem unknown_command_examples :
    handle_tcp_data three_peers 5 7 (some (str "/xyz")) none
      = ⟨[Syscall.send 7 (str "Unknown command\n")], Status.returned three_peers⟩
    ∧ handle_tcp_data three_peers 5 7 (some (str "/TIME")) none
      = ⟨[Syscall.send 7 (str "Unknown command\n")], Status.returned three_peers⟩
    ∧ handle_tcp_data three_peers 5 7 (some (str "/")) none
      = ⟨[Syscall.send 7 (str "Unknown command\n")], Status.returned three_peers⟩
    ∧ handle_tcp_data three_peers 5 7 (some (str "/stats\n")) none
      = ⟨[Syscall.send 7 (str "Unknown command\n")], Status.returned three_peers⟩
    ∧ handle_tcp_data three_peers 5 7 (some (str "/xyz" ++ 0 :: str "/stats")) none
      = ⟨[Syscall.send 7 (str "Unknown command\n")], Status.returned three_peers⟩ := by
  decide

/-! ### Teardown -/

theorem map_find_erase_ne (m : ClientMap) (fd k : Int) (h : k ≠ fd) :
    map_find (map_erase m fd) k = map_find m k := by
  induction m with
  | nil => rfl
  | cons p rest ih =>
    by_cases hp : p.1 = fd
    · have hk : p.1 ≠ k := fun e => h (e ▸ hp)
      simp only [map_erase, hp, if_true, map_find, ih]
      rw [if_neg (hp ▸ hk)]
    · simp only [map_erase, hp, if_false, map_find, ih]

theorem mem_keys_erase {m : ClientMap} {fd k : Int} :
    k ∈ map_keys (map_erase m fd) ↔ k ∈ map_keys m ∧ k ≠ fd := by
  induction m with
  | nil => simp [map_keys, map_erase]
  | cons p rest ih =>
    simp only [map_keys] at ih
    by_cases hp : p.1 = fd
    · simp only [map_erase, hp, if_true, map_keys, List.map_cons, List.mem_cons, ih]
      constructor
      · rintro ⟨h1, h2⟩
        exact ⟨Or.inr h1, h2⟩
      · rintro ⟨h1 | h1, h2⟩
        · exact absurd h1 h2
        · exact ⟨h1, h2⟩
    · simp only [map_erase, hp, if_false, map_keys, List.map_cons, List.mem_cons, ih]
      constructor
      · rintro (h1 | ⟨h1, h2⟩)
        · exact ⟨Or.inl h1, h1 ▸ hp⟩
        · exact ⟨Or.inr h1, h2⟩
      · rintro ⟨h1 | h1, h2⟩
        · exact Or.inl h1
        · exact Or.inr ⟨h1, h2⟩

theorem not_mem_keys_erase (m : ClientMap) (fd : Int) : fd ∉ map_keys (map_erase m fd) := by
  rw [mem_keys_erase]
  exact fun h => h.2 rfl

theorem map_find_none_of_not_mem {m : ClientMap} {k : Int} (h : k ∉ map_keys m) :
    map_find m k = none := by
  induction m with
  | nil => rfl
  | cons p rest ih =>
    simp only [map_keys, List.map_cons, List.mem_cons, not_or] at h
    simp only [map_find]
    rw [if_neg (fun e => h.1 e.symm)]
    exact ih h.2

theorem length_erase_le (m : ClientMap) (fd : Int) : (map_erase m fd).length ≤ m.length := by
  induction m with
  | nil => simp [map_erase]
  | cons p rest ih =>
    by_cases hp : p.1 = fd
    · simp only [map_erase, hp, if_true, List.length_cons]
      omega
    · simp only [map_erase, hp, if_false, List.length_cons]
      omega

theorem length_erase_lt {m : ClientMap} {fd : Int} (h : fd ∈ map_keys m) :
    (map_erase m fd).length < m.length := by
  induction m with
  | nil => simp [map_keys] at h
  | cons p rest ih =>
    by_cases hp : p.1 = fd
    · simp only [map_erase, hp, if_true, List.length_cons]
      have := length_erase_le rest fd
      omega
    · simp only [map_keys, List.map_cons, List.mem_cons] at h
      have h2 : fd ∈ map_keys rest := h.resolve_left (fun e => hp e.symm)
      simp only [map_erase, hp, if_false, List.length_cons]
      have := ih h2
      omega

/-- C5 (teardown). For every server state and every descriptor that is a key of
the registry, `handle_tcp_data` does the same when `read` gives 0 and when it
fails: it issues `epoll_ctl(EPOLL_CTL_DEL)` and `close` on the descriptor and
returns the state in which the key is erased, every other key maps to what it
mapped to, `total_connections` and the constants are unchanged and
`current_connections` has gone through `--` (one less, whenever it was
positive). -/
theorem teardown_on_eof_or_error (s : EServer) (epoll_fd fd : Int) (clock : Option Bytes)
    (hkey : fd ∈ map_keys s.client_map) :
    handle_tcp_data s epoll_fd fd (some []) clock = handle_tcp_data s epoll_fd fd none clock
    ∧ (handle_tcp_data s epoll_fd fd none clock).trace
        = [Syscall.epoll_ctl_del epoll_fd fd, Syscall.close fd]
    ∧ ∃ s1, (handle_tcp_data s epoll_fd fd none clock).status = Status.returned s1
        ∧ fd ∉ map_keys s1.client_map
        ∧ map_find s1.client_map fd = none
        ∧ (∀ k, k ≠ fd → map_find s1.client_map k = map_find s.client_map k)
        ∧ s1.client_map.length < s.client_map.length
        ∧ s1.total_connections = s.total_connections
        ∧ s1.current_connections = uint64_dec s.current_connections
        ∧ (0 < s.current_connections → s.current_connections < 2 ^ 64 →
            s1.current_connections + 1 = s.current_connections)
        ∧ s1.MAX_EVENTS = s.MAX_EVENTS ∧ s1.TCP_PORT = s.TCP_PORT
        ∧ s1.UDP_PORT = s.UDP_PORT := by
  refine ⟨by simp [handle_tcp_data, sys_read], by simp [handle_tcp_data, sys_read, tcp_teardown],
    _, by simp [handle_tcp_data, sys_read, tcp_teardown]; rfl, ?_⟩
  refine ⟨not_mem_keys_erase _ _, ?_, fun k hk => map_find_erase_ne _ _ _ hk, ?_, rfl, rfl, ?_,
    rfl, rfl, rfl⟩
  · exact map_find_none_of_not_mem (not_mem_keys_erase _ _)
  · exact length_erase_lt hkey
  · intro h0 h64
    simp only [uint64_dec]
    omega

/-- Witness of C5: in the state with three peers, end of stream on descriptor 7. -/
theorem teardown_on_eof_or_error_witness :
    handle_tcp_data three_peers 5 7 (some []) none = handle_tcp_data three_peers 5 7 none none
    ∧ (handle_tcp_data three_peers 5 7 none none).trace
        = [Syscall.epoll_ctl_del 5 7, Syscall.close 7]
    ∧ ∃ s1, (handle_tcp_data three_peers 5 7 none none).status = Status.returned s1
        ∧ (7 : Int) ∉ map_keys s1.client_map
        ∧ map_find s1.client_map 7 = none
        ∧ (∀ k, k ≠ 7 → map_find s1.client_map k = map_find three_peers.client_map k)
        ∧ s1.client_map.length < three_peers.client_map.length
        ∧ s1.total_connections = three_peers.total_connections
        ∧ s1.current_connections = uint64_dec three_peers.current_connections
        ∧ (0 < three_peers.current_connections → three_peers.current_connections < 2 ^ 64 →
            s1.current_connections + 1 = three_peers.current_connections)
        ∧ s1.MAX_EVENTS = three_peers.MAX_EVENTS ∧ s1.TCP_PORT = three_peers.TCP_PORT
        ∧ s1.UDP_PORT = three_peers.UDP_PORT :=
  teardown_on_eof_or_error three_peers 5 7 none (by decide)

/-! ### Shutdown -/

theorem shutdown_loop_pair (m : ClientMap) (p : Int × ClientData) (h : p ∈ m) :
    [Syscall.shutdown p.1, Syscall.close p.1] <:+: shutdown_loop m := by
  induction m with
  | nil => simp at h
  | cons q rest ih =>
    rcases List.mem_cons.mp h with h1 | h1
    · subst h1
      exact ⟨[], shutdown_loop rest, by simp [shutdown_loop]⟩
    · obtain ⟨l1, l2, h2⟩ := ih h1
      exact ⟨Syscall.shutdown q.1 :: Syscall.close q.1 :: l1, l2, by simp [shutdown_loop, ← h2]⟩

theorem shutdown_loop_silent (m : ClientMap) : ∀ c ∈ shutdown_loop m, c.transmits = false := by
  induction m with
  | nil => simp [shutdown_loop]
  | cons q rest ih =>
    intro c hc
    simp only [shutdown_loop, List.mem_cons] at hc
    rcases hc with hc | hc | hc
    · subst hc; rfl
    · subst hc; rfl
    · exact ih c hc

theorem sent_payload_silent (tr : List Syscall) (h : ∀ c ∈ tr, c.transmits = false) :
    sent_payload tr = [] := by
  induction tr with
  | nil => rfl
  | cons c rest ih =>
    have hc := h c (List.mem_cons_self _ _)
    have hrest := ih (fun d hd => h d (List.mem_cons_of_mem _ hd))
    cases c <;> simp_all [sent_payload, Syscall.transmits]

/-- C8 (shutdown). In every server state, when the command line of a received
buffer is `/shutdown`, `handle_tcp_data` and `handle_udp_data` alike issue, for
every entry of the registry (so for every TCP peer), `shutdown` immediately
followed by `close` on its descriptor, then `close` on the epoll descriptor as
the last call, and end the process with `exit(0)`; no `send` or `sendto` is
issued. -/
theorem shutdown_closes_all (s : EServer) (epoll_fd fd udp_socket : Int) (buffer : Bytes)
    (peer : sockaddr_in) (peer_len : Nat) (clock : Option Bytes)
    (hlen : buffer.length ≤ 1023) (hcmd : c_string buffer = str "/shutdown") :
    handle_tcp_data s epoll_fd fd (some buffer) clock
      = ⟨shutdown_loop s.client_map ++ [Syscall.close epoll_fd], Status.exited 0⟩
    ∧ handle_udp_data s epoll_fd udp_socket (some buffer) peer peer_len clock
      = ⟨shutdown_loop s.client_map ++ [Syscall.close epoll_fd], Status.exited 0⟩
    ∧ (∀ p ∈ s.client_map, [Syscall.shutdown p.1, Syscall.close p.1]
          <:+: shutdown_loop s.client_map ++ [Syscall.close epoll_fd])
    ∧ (∀ c ∈ shutdown_loop s.client_map ++ [Syscall.close epoll_fd], c.transmits = false)
    ∧ sent_payload (handle_tcp_data s epoll_fd fd (some buffer) clock).trace = [] := by
  have hslash : buffer.head? = some 47 := @head_of_c_string buffer (str "shutdown") 47 hcmd
  have hpos := length_pos_int (head_ne_nil hslash)
  have hc : handle_command s (c_string buffer) epoll_fd clock
      = CommandResult.exited (shutdown_loop s.client_map ++ [Syscall.close epoll_fd]) 0 := by
    rw [hcmd]
    simp only [handle_command, handle_shutdown_command]
    rw [if_neg (by decide), if_neg (by decide)]
    simp
  have htcp : handle_tcp_data s epoll_fd fd (some buffer) clock
      = ⟨shutdown_loop s.client_map ++ [Syscall.close epoll_fd], Status.exited 0⟩ := by
    simp [handle_tcp_data, sys_read_some buffer hlen, hpos, hslash, hc]
  have hsilent : ∀ c ∈ shutdown_loop s.client_map ++ [Syscall.close epoll_fd],
      c.transmits = false := by
    intro c hc
    rcases List.mem_append.mp hc with h | h
    · exact shutdown_loop_silent _ c h
    · simp only [List.mem_singleton] at h
      subst h; rfl
  refine ⟨htcp, ?_, ?_, hsilent, ?_⟩
  · simp [handle_udp_data, sys_read_some buffer hlen, hpos, hslash, hc]
  · intro p hp
    obtain ⟨l1, l2, h⟩ := shutdown_loop_pair s.client_map p hp
    exact ⟨l1, l2 ++ [Syscall.close epoll_fd], by simp [← h]⟩
  · rw [htcp]
    exact sent_payload_silent _ hsilent

/-- Witness of C8: with three connected TCP peers, the peer on descriptor 7 sends `/shutdown`. -/
theorem shutdown_closes_all_witness :
    handle_tcp_data three_peers 5 7 (some (str "/shutdown")) none
      = ⟨[Syscall.shutdown 8, Syscall.close 8, Syscall.shutdown 7, Syscall.close 7,
          Syscall.shutdown 6, Syscall.close 6, Syscall.close 5], Status.exited 0⟩
    ∧ handle_udp_data three_peers 5 4 (some (str "/shutdown")) ⟨16777343, 4242⟩ 16 none
      = ⟨shutdown_loop three_peers.client_map ++ [Syscall.close 5], Status.exited 0⟩
    ∧ (∀ p ∈ three_peers.client_map, [Syscall.shutdown p.1, Syscall.close p.1]
          <:+: shutdown_loop three_peers.client_map ++ [Syscall.close 5])
    ∧ (∀ c ∈ shutdown_loop three_peers.client_map ++ [Syscall.close 5], c.transmits = false)
    ∧ sent_payload (handle_tcp_data three_peers 5 7 (some (str "/shutdown")) none).trace = [] :=
  shutdown_closes_all three_peers 5 7 4 (str "/shutdown") ⟨16777343, 4242⟩ 16 none
    (by decide) (by decide)

/-! ### The dispatch loop -/

/-- C10 (error events). For every ready event whose flags contain `EPOLLERR`
or `EPOLLHUP`, the loop body issues `close` on the event's descriptor and
nothing else, whatever the kernel would answer to a handler, and returns the
server state (registry, `total_connections`, `current_connections`) exactly as
it was; the `for` loop then goes on with the remaining events in that state. -/
theorem error_event_only_closes (tcp_socket udp_socket epoll_fd : Int) (s : EServer)
    (ev : epoll_event) (k : Kernel) (rest : List (epoll_event × Kernel))
    (herr : ev.events &&& EPOLLERR ≠ 0 ∨ ev.events &&& EPOLLHUP ≠ 0) :
    dispatch tcp_socket udp_socket epoll_fd s ev k
      = ⟨[Syscall.close ev.fd], Status.returned s⟩
    ∧ for_events tcp_socket udp_socket epoll_fd s ((ev, k) :: rest)
      = ⟨Syscall.close ev.fd :: (for_events tcp_socket udp_socket epoll_fd s rest).trace,
          (for_events tcp_socket udp_socket epoll_fd s rest).status⟩ := by
  have h : dispatch tcp_socket udp_socket epoll_fd s ev k
      = ⟨[Syscall.close ev.fd], Status.returned s⟩ := by
    simp only [dispatch]
    rw [if_pos herr]
  refine ⟨h, ?_⟩
  simp only [for_events, h]
  rfl

/-- Witness of C10: a hang-up on descriptor 7 of the three connected peers,
followed in the same batch by data from descriptor 8. -/
theorem error_event_only_closes_witness :
    dispatch 3 4 5 three_peers ⟨17, 7⟩ (kernel_data none ⟨0, 0⟩)
      = ⟨[Syscall.close 7], Status.returned three_peers⟩
    ∧ for_events 3 4 5 three_peers
        ((⟨17, 7⟩, kernel_data none ⟨0, 0⟩) :: [(⟨1, 8⟩, kernel_data (some [104, 105]) ⟨0, 0⟩)])
      = ⟨Syscall.close 7 ::
          (for_events 3 4 5 three_peers
            [(⟨1, 8⟩, kernel_data (some [104, 105]) ⟨0, 0⟩)]).trace,
          (for_events 3 4 5 three_peers
            [(⟨1, 8⟩, kernel_data (some [104, 105]) ⟨0, 0⟩)]).status⟩ :=
  error_event_only_closes 3 4 5 three_peers ⟨17, 7⟩ (kernel_data none ⟨0, 0⟩)
    [(⟨1, 8⟩, kernel_data (some [104, 105]) ⟨0, 0⟩)] (by decide)

theorem for_events_append (tcp_socket udp_socket epoll_fd : Int) (s s1 : EServer)
    (pre post : List (epoll_event × Kernel)) (tr : List Syscall)
    (h : for_events tcp_socket udp_socket epoll_fd s pre = ⟨tr, Status.returned s1⟩) :
    for_events tcp_socket udp_socket epoll_fd s (pre ++ post)
      = ⟨tr ++ (for_events tcp_socket udp_socket epoll_fd s1 post).trace,
          (for_events tcp_socket udp_socket epoll_fd s1 post).status⟩ := by
  induction pre generalizing s tr with
  | nil =>
    simp only [for_events, Result.mk.injEq, Status.returned.injEq] at h
    obtain ⟨h1, h2⟩ := h
    subst h1 h2
    simp
  | cons p pre ih =>
    simp only [for_events, List.cons_append] at h ⊢
    generalize hd : dispatch tcp_socket udp_socket epoll_fd s p.1 p.2 = d at h ⊢
    rcases d with ⟨tr0, st⟩
    cases st with
    | returned s2 =>
      simp only [Result.mk.injEq] at h
      generalize hr : for_events tcp_socket udp_socket epoll_fd s2 pre = r at h
      rcases r with ⟨tr2, st2⟩
      simp only at h
      obtain ⟨h1, h2⟩ := h
      subst h1 h2
      simp [ih s2 tr2 hr]
    | thrown w s2 => simp at h
    | exited c => simp at h

theorem while_true_append (tcp_socket udp_socket epoll_fd : Int) (s s1 : EServer)
    (earlier later : List WaitResult) (tr : List Syscall)
    (h : while_true tcp_socket udp_socket epoll_fd s earlier = ⟨tr, Status.returned s1⟩) :
    while_true tcp_socket udp_socket epoll_fd s (earlier ++ later)
      = ⟨tr ++ (while_true tcp_socket udp_socket epoll_fd s1 later).trace,
          (while_true tcp_socket udp_socket epoll_fd s1 later).status⟩ := by
  induction earlier generalizing s tr with
  | nil =>
    simp only [while_true, Result.mk.injEq, Status.returned.injEq] at h
    obtain ⟨h1, h2⟩ := h
    subst h1 h2
    simp
  | cons w ws ih =>
    cases w with
    | eintr =>
      simp only [while_true, List.cons_append] at h ⊢
      exact ih s tr h
    | failed => simp [while_true] at h
    | ready evs =>
      simp only [while_true, List.cons_append] at h ⊢
      generalize hd : for_events tcp_socket udp_socket epoll_fd s evs = d at h ⊢
      rcases d with ⟨tr0, st⟩
      cases st with
      | returned s2 =>
        simp only [Result.mk.injEq] at h
        generalize hr : while_true tcp_socket udp_socket epoll_fd s2 ws = r at h
        rcases r with ⟨tr2, st2⟩
        simp only at h
        obtain ⟨h1, h2⟩ := h
        subst h1 h2
        simp [ih s2 tr2 hr]
      | thrown w s2 => simp at h
      | exited c => simp at h

/-- C6, as amended. When `accept` fails (negative descriptor),
`handle_tcp_connection` issues no call and throws `std::logic_error` with the
server object (registry and both counters) untouched; in `main` the exception
leaves the dispatch loop: whatever `epoll_wait` results and events of the batch
were handled normally before, the remaining events of the batch and all later
`epoll_wait` results are not processed, the `catch` handler closes the
listening, UDP and epoll descriptors (those that are not `-1`) and `main`
returns 1. -/
theorem accept_failure_ends_main (tcp_socket udp_socket epoll_fd : Int) (s00 s0 s : EServer)
    (earlier later : List WaitResult) (pre rest : List (epoll_event × Kernel))
    (tr0 tr : List Syscall) (ev : epoll_event) (k : Kernel)
    (hearlier : while_true tcp_socket udp_socket epoll_fd s00 earlier
      = ⟨tr0, Status.returned s0⟩)
    (hpre : for_events tcp_socket udp_socket epoll_fd s0 pre = ⟨tr, Status.returned s⟩)
    (hflags : ¬ (ev.events &&& EPOLLERR ≠ 0 ∨ ev.events &&& EPOLLHUP ≠ 0))
    (hfd : ev.fd = tcp_socket) (hfail : k.accept.client_fd < 0) :
    handle_tcp_connection s epoll_fd k.accept
      = ⟨[], Status.thrown "Error accepting connection" s⟩
    ∧ main_loop tcp_socket udp_socket epoll_fd s00
        (earlier ++ WaitResult.ready (pre ++ (ev, k) :: rest) :: later)
      = (tr0 ++ (tr ++ catch_block tcp_socket udp_socket epoll_fd), MainStatus.returned 1) := by
  have h1 : handle_tcp_connection s epoll_fd k.accept
      = ⟨[], Status.thrown "Error accepting connection" s⟩ := by
    simp only [handle_tcp_connection]
    rw [if_pos hfail]
  have h2 : dispatch tcp_socket udp_socket epoll_fd s ev k
      = ⟨[], Status.thrown "Error accepting connection" s⟩ := by
    simp only [dispatch]
    rw [if_neg hflags, if_pos hfd, h1]
  have h3 : for_events tcp_socket udp_socket epoll_fd s ((ev, k) :: rest)
      = ⟨[], Status.thrown "Error accepting connection" s⟩ := by
    simp only [for_events, h2]
  have h4 : while_true tcp_socket udp_socket epoll_fd s0
      (WaitResult.ready (pre ++ (ev, k) :: rest) :: later)
      = ⟨tr, Status.thrown "Error accepting connection" s⟩ := by
    simp only [while_true, for_events_append _ _ _ s0 s pre _ tr hpre, h3]
    simp
  refine ⟨h1, ?_⟩
  simp only [main_loop, while_true_append _ _ _ s00 s0 earlier _ tr0 hearlier, h4,
    List.append_assoc]

/-- Counterexample to C6: with three connected peers, a batch holds a failing
accept on the listening socket 3 followed by data from peer 7, and a later
batch holds data from peer 8. `main` returns 1 after closing descriptors 3, 4
and 5, and nothing is sent to peers 7 and 8; without the failing accept the same
script serves both peers and the loop keeps running. -/
theorem accept_failure_stops_server :
    main_loop 3 4 5 three_peers
        [WaitResult.ready [(⟨1, 3⟩, kernel_accept failed_accept),
            (⟨1, 7⟩, kernel_data (some [104, 105]) ⟨0, 0⟩)],
          WaitResult.ready [(⟨1, 8⟩, kernel_data (some [121, 111]) ⟨0, 0⟩)]]
      = ([Syscall.close 3, Syscall.close 4, Syscall.close 5], MainStatus.returned 1)
    ∧ main_loop 3 4 5 three_peers
        [WaitResult.ready [(⟨1, 7⟩, kernel_data (some [104, 105]) ⟨0, 0⟩)],
          WaitResult.ready [(⟨1, 8⟩, kernel_data (some [121, 111]) ⟨0, 0⟩)]]
      = ([Syscall.send 7 [104, 105], Syscall.send 8 [121, 111]],
          MainStatus.running three_peers) := by
  decide

/-- Witness of C6 as amended: after an interrupted wait and a batch with data
from peer 8, the failing accept is the first event of the next batch. -/
theorem accept_failure_ends_main_witness :
    handle_tcp_connection three_peers 5 (kernel_accept failed_accept).accept
      = ⟨[], Status.thrown "Error accepting connection" three_peers⟩
    ∧ main_loop 3 4 5 three_peers
        ([WaitResult.eintr, WaitResult.ready [(⟨1, 8⟩, kernel_data (some [121, 111]) ⟨0, 0⟩)]]
          ++ WaitResult.ready ([] ++ (⟨1, 3⟩, kernel_accept failed_accept)
            :: [(⟨1, 7⟩, kernel_data (some [104, 105]) ⟨0, 0⟩)])
          :: [WaitResult.ready [(⟨1, 8⟩, kernel_data (some [121, 111]) ⟨0, 0⟩)]])
      = ([Syscall.send 8 [121, 111]] ++ ([] ++ catch_block 3 4 5), MainStatus.returned 1) :=
  accept_failure_ends_main 3 4 5 three_peers three_peers three_peers
    [WaitResult.eintr, WaitResult.ready [(⟨1, 8⟩, kernel_data (some [121, 111]) ⟨0, 0⟩)]]
    [WaitResult.ready [(⟨1, 8⟩, kernel_data (some [121, 111]) ⟨0, 0⟩)]]
    [] [(⟨1, 7⟩, kernel_data (some [104, 105]) ⟨0, 0⟩)] [Syscall.send 8 [121, 111]] []
    ⟨1, 3⟩ (kernel_accept failed_accept) (by decide) rfl (by decide) rfl (by decide)

/-! ### Accepting connections -/

theorem handle_tcp_connection_ok (s : EServer) (epoll_fd : Int) (a : AcceptReply)
    (h : accept_succeeds a) :
    handle_tcp_connection s epoll_fd a
      = ⟨[Syscall.fcntl_setfl a.client_fd, Syscall.epoll_ctl_add epoll_fd a.client_fd],
          Status.returned { s with
            client_map := map_assign s.client_map a.client_fd (new_tcp_client a),
            total_connections := uint64_inc s.total_connections,
            current_connections := uint64_inc s.current_connections }⟩ := by
  obtain ⟨h1, h2, h3, h4⟩ := h
  have h1n : ¬ a.client_fd < 0 := by omega
  simp [handle_tcp_connection, setnonblocking, h1n, h2, h3, h4]

theorem run_accepts (epoll_fd : Int) (accepts : List AcceptReply) (s : EServer)
    (hok : ∀ a ∈ accepts, accept_succeeds a)
    (ht : s.total_connections < 2 ^ 64) (hc : s.current_connections < 2 ^ 64) :
    ∃ s1, run s (accepts.map (Event.accept epoll_fd)) = some s1
      ∧ s1.total_connections = (s.total_connections + accepts.length) % 2 ^ 64
      ∧ s1.current_connections = (s.current_connections + accepts.length) % 2 ^ 64 := by
  induction accepts generalizing s with
  | nil =>
    refine ⟨s, rfl, ?_, ?_⟩
    · simp only [List.length_nil]
      omega
    · simp only [List.length_nil]
      omega
  | cons a rest ih =>
    have ha := hok a (List.mem_cons_self _ _)
    obtain ⟨s1, h1, h2, h3⟩ := ih
      { s with
        client_map := map_assign s.client_map a.client_fd (new_tcp_client a),
        total_connections := uint64_inc s.total_connections,
        current_connections := uint64_inc s.current_connections }
      (fun b hb => hok b (List.mem_cons_of_mem _ hb))
      (by simp only [uint64_inc]; omega) (by simp only [uint64_inc]; omega)
    refine ⟨s1, ?_, ?_, ?_⟩
    · simp only [List.map_cons, run, Event.handle, handle_tcp_connection_ok s epoll_fd a ha]
      exact h1
    · rw [h2]
      simp only [uint64_inc, List.length_cons]
      omega
    · rw [h3]
      simp only [uint64_inc, List.length_cons]
      omega

theorem length_le_of_distinct_ints (l : List Int) (M : Nat) (hd : l.Nodup)
    (hr : ∀ x ∈ l, 0 ≤ x ∧ x < M) : l.length ≤ M := by
  have hn : (l.map Int.toNat).Nodup := by
    refine List.Nodup.map_on ?_ hd
    intro x hx y hy hxy
    have := (hr x hx).1
    have := (hr y hy).1
    omega
  have hs : l.map Int.toNat ⊆ List.range M := by
    intro n hn
    obtain ⟨x, hx, rfl⟩ := List.mem_map.mp hn
    have := hr x hx
    rw [List.mem_range]
    omega
  have := (hn.subperm hs).length_le
  simpa using this

theorem str_append (a b : String) : str (a ++ b) = str a ++ str b := by
  simp [str]

/-- C2 (stats after N accepts). Starting from a freshly constructed server,
after `N` successful accepts (successful registration included) and nothing
else - the `N` descriptors, all still open, are `N` different values of type
`int` - the run ends in a state whose two counters are `N`, and a TCP peer that
then sends `/stats` is sent exactly
`Total connections: N, Current connections: N` followed by one newline, with
`N` in decimal. This holds for every `N`. -/
theorem stats_after_accepts (events tcpPort udpPort : Nat) (epoll_fd fd : Int)
    (accepts : List AcceptReply) (clock : Option Bytes)
    (hok : ∀ a ∈ accepts, accept_succeeds a)
    (hint : ∀ a ∈ accepts, a.client_fd < 2 ^ 31)
    (hopen : (accepts.map (fun a => a.client_fd)).Nodup) :
    ∃ s, run (EServer.new events tcpPort udpPort) (accepts.map (Event.accept epoll_fd)) = some s
      ∧ s.total_connections = accepts.length
      ∧ s.current_connections = accepts.length
      ∧ handle_tcp_data s epoll_fd fd (some (str "/stats")) clock
        = ⟨[Syscall.send fd (str ("Total connections: " ++ toString accepts.length
              ++ ", Current connections: " ++ toString accepts.length ++ "\n"))],
            Status.returned s⟩ := by
  obtain ⟨s, hrun, htot, hcur⟩ := run_accepts epoll_fd accepts (EServer.new events tcpPort udpPort) hok
    (by simp [EServer.new]) (by simp [EServer.new])
  have hlen : accepts.length ≤ 2 ^ 31 := by
    have := length_le_of_distinct_ints (accepts.map (fun a => a.client_fd)) (2 ^ 31) hopen (by
      intro x hx
      obtain ⟨a, ha, rfl⟩ := List.mem_map.mp hx
      exact ⟨(hok a ha).1, by have := hint a ha; exact_mod_cast this⟩)
    simpa using this
  have htot1 : s.total_connections = accepts.length := by
    rw [htot]
    simp only [EServer.new]
    omega
  have hcur1 : s.current_connections = accepts.length := by
    rw [hcur]
    simp only [EServer.new]
    omega
  refine ⟨s, hrun, htot1, hcur1, ?_⟩
  have hc : handle_command s (c_string (str "/stats")) epoll_fd clock
      = CommandResult.response (str ("Total connections: " ++ toString accepts.length
          ++ ", Current connections: " ++ toString accepts.length ++ "\n")) := by
    have hcs : c_string (str "/stats") = str "/stats" := by decide
    rw [hcs]
    simp only [handle_command]
    rw [if_neg (by decide)]
    simp only [if_true, handle_stats_command, decimal, htot1, hcur1, str_append,
      List.append_assoc]
  have hread : sys_read (some (str "/stats")) 1023 = (6, str "/stats") := by decide
  simp only [handle_tcp_data, hread]
  rw [if_pos (by decide), if_pos (by decide), hc]

/-! ### The registry as a map -/

theorem mem_erase {m : ClientMap} {k : Int} {p : Int × ClientData} :
    p ∈ map_erase m k ↔ p ∈ m ∧ p.1 ≠ k := by
  induction m with
  | nil => simp [map_erase]
  | cons q rest ih =>
    by_cases hq : q.1 = k
    · simp only [map_erase, hq, if_true, ih, List.mem_cons]
      constructor
      · rintro ⟨h1, h2⟩
        exact ⟨Or.inr h1, h2⟩
      · rintro ⟨h1 | h1, h2⟩
        · exact absurd (h1 ▸ hq) h2
        · exact ⟨h1, h2⟩
    · simp only [map_erase, hq, if_false, List.mem_cons, ih]
      constructor
      · rintro (h1 | ⟨h1, h2⟩)
        · exact ⟨Or.inl h1, h1 ▸ hq⟩
        · exact ⟨Or.inr h1, h2⟩
      · rintro ⟨h1 | h1, h2⟩
        · exact Or.inl h1
        · exact Or.inr ⟨h1, h2⟩

theorem erase_sublist (m : ClientMap) (k : Int) : (map_erase m k).Sublist m := by
  induction m with
  | nil => simp [map_erase]
  | cons q rest ih =>
    by_cases hq : q.1 = k
    · simp only [map_erase, hq, if_true]
      exact ih.trans (List.sublist_cons_self _ _)
    · simp only [map_erase, hq, if_false]
      exact ih.cons₂ _

theorem keys_erase_nodup {m : ClientMap} (k : Int) (h : (map_keys m).Nodup) :
    (map_keys (map_erase m k)).Nodup :=
  h.sublist ((erase_sublist m k).map Prod.fst)

theorem erase_of_not_mem {m : ClientMap} {k : Int} (h : k ∉ map_keys m) :
    map_erase m k = m := by
  induction m with
  | nil => rfl
  | cons q rest ih =>
    simp only [map_keys, List.map_cons, List.mem_cons, not_or] at h
    simp only [map_erase]
    rw [if_neg (fun e => h.1 e.symm), ih h.2]

theorem length_erase_of_mem {m : ClientMap} {k : Int} (hn : (map_keys m).Nodup)
    (h : k ∈ map_keys m) : (map_erase m k).length + 1 = m.length := by
  induction m with
  | nil => simp [map_keys] at h
  | cons q rest ih =>
    simp only [map_keys, List.map_cons, List.nodup_cons] at hn
    by_cases hq : q.1 = k
    · have hk : k ∉ map_keys rest := hq ▸ hn.1
      simp only [map_erase, hq, if_true, List.length_cons, erase_of_not_mem hk]
    · simp only [map_keys, List.map_cons, List.mem_cons] at h
      have h2 : k ∈ map_keys rest := h.resolve_left (fun e => hq e.symm)
      simp only [map_erase, hq, if_false, List.length_cons]
      have := ih hn.2 h2
      omega

theorem assign_of_not_mem {m : ClientMap} {k : Int} (v : ClientData) (h : k ∉ map_keys m) :
    map_assign m k v = (k, v) :: m := by
  simp only [map_assign]
  rw [if_neg h]

theorem mem_assign {m : ClientMap} {k : Int} {v : ClientData} {p : Int × ClientData}
    (h : p ∈ map_assign m k v) : p = (k, v) ∨ (p ∈ m ∧ p.1 ≠ k) := by
  simp only [map_assign] at h
  split at h
  · obtain ⟨q, hq, rfl⟩ := List.mem_map.mp h
    by_cases hk : q.1 = k
    · left
      simp [hk]
    · right
      simp only [hk, if_false]
      exact ⟨hq, hk⟩
  · rcases List.mem_cons.mp h with h1 | h1
    · exact Or.inl h1
    · right
      refine ⟨h1, fun e => ?_⟩
      rename_i hk
      exact hk (e ▸ List.mem_map_of_mem Prod.fst h1)

theorem keys_assign (m : ClientMap) (k : Int) (v : ClientData) :
    map_keys (map_assign m k v) = if k ∈ map_keys m then map_keys m else k :: map_keys m := by
  simp only [map_assign]
  split
  · simp only [map_keys, List.map_map]
    apply List.map_congr_left
    intro q _
    by_cases hk : q.1 = k <;> simp [hk]
  · rfl

theorem keys_assign_nodup {m : ClientMap} (k : Int) (v : ClientData)
    (h : (map_keys m).Nodup) : (map_keys (map_assign m k v)).Nodup := by
  rw [keys_assign]
  split
  · exact h
  · rename_i hk
    exact List.nodup_cons.mpr ⟨hk, h⟩

/-! ### The registry invariant -/

theorem no_wrap_val : NO_WRAP = 2147482648 := by decide

theorem uint64_inc_eq {x : Nat} (h : x < 2 ^ 64 - 1) : uint64_inc x = x + 1 := by
  simp only [uint64_inc]
  omega

theorem udp_fd_no_wrap (t : Nat) (h : t ≤ NO_WRAP) :
    uint64_to_int (uint64_sub (int_to_uint64 UDP_CLIENT_FD_BASE) t) = -1000 - (t : Int) := by
  have hb : int_to_uint64 UDP_CLIENT_FD_BASE = 2 ^ 64 - 1000 := by decide
  simp only [NO_WRAP] at h
  rw [hb]
  simp only [uint64_sub, uint64_to_int]
  have h1 : (2 ^ 64 - 1000 + 2 ^ 64 - t % 2 ^ 64) % 2 ^ 64 % 2 ^ 32 = 2 ^ 32 - 1000 - t := by
    omega
  rw [h1]
  split <;> omega

theorem MapInv.new : MapInv [] 0 :=
  { keys_nodup := List.nodup_nil
    fd_eq := fun _ h => absurd h (List.not_mem_nil _)
    tcp_range := fun _ h => absurd h (List.not_mem_nil _)
    udp_range := fun _ h => absurd h (List.not_mem_nil _)
    udp_unique := fun _ h => absurd h (List.not_mem_nil _)
    total_le := Nat.zero_le _ }

theorem MapInv.mono {m : ClientMap} {t u : Nat} (h : MapInv m t) (htu : t ≤ u)
    (hu : u ≤ NO_WRAP) : MapInv m u :=
  { keys_nodup := h.keys_nodup
    fd_eq := h.fd_eq
    tcp_range := h.tcp_range
    udp_range := fun p hp hudp => by
      have := h.udp_range p hp hudp
      constructor
      · omega
      · exact this.2
    udp_unique := h.udp_unique
    total_le := hu }

theorem MapInv.erase {m : ClientMap} {t : Nat} (h : MapInv m t) (k : Int) :
    MapInv (map_erase m k) t :=
  { keys_nodup := keys_erase_nodup k h.keys_nodup
    fd_eq := fun p hp => h.fd_eq p (mem_erase.mp hp).1
    tcp_range := fun p hp => h.tcp_range p (mem_erase.mp hp).1
    udp_range := fun p hp => h.udp_range p (mem_erase.mp hp).1
    udp_unique := fun p hp q hq => h.udp_unique p (mem_erase.mp hp).1 q (mem_erase.mp hq).1
    total_le := h.total_le }

theorem MapInv.assign_tcp {m : ClientMap} {t : Nat} (h : MapInv m t) (a : AcceptReply)
    (hfd : 0 ≤ a.client_fd) : MapInv (map_assign m a.client_fd (new_tcp_client a)) t :=
  { keys_nodup := keys_assign_nodup _ _ h.keys_nodup
    fd_eq := fun p hp => by
      rcases mem_assign hp with h1 | h1
      · subst h1; rfl
      · exact h.fd_eq p h1.1
    tcp_range := fun p hp htcp => by
      rcases mem_assign hp with h1 | h1
      · subst h1; exact hfd
      · exact h.tcp_range p h1.1 htcp
    udp_range := fun p hp hudp => by
      rcases mem_assign hp with h1 | h1
      · subst h1; simp [new_tcp_client] at hudp
      · exact h.udp_range p h1.1 hudp
    udp_unique := fun p hp q hq hudp hsame => by
      rcases mem_assign hp with h1 | h1
      · subst h1; simp [new_tcp_client] at hudp
      · rcases mem_assign hq with h2 | h2
        · subst h2
          simp [same_udp_sender, new_tcp_client] at hsame
        · exact h.udp_unique p h1.1 q h2.1 hudp hsame
    total_le := h.total_le }

theorem MapInv.not_mem_of_lt {m : ClientMap} {t : Nat} (h : MapInv m t) {k : Int}
    (hk : k < -1000 - (t : Int)) : k ∉ map_keys m := by
  intro hmem
  obtain ⟨p, hp, rfl⟩ := List.mem_map.mp hmem
  cases htcp : p.2.is_tcp with
  | true =>
    have := h.tcp_range p hp htcp
    omega
  | false =>
    have := h.udp_range p hp htcp
    omega

theorem MapInv.assign_udp {m : ClientMap} {t : Nat} (h : MapInv m t) (addr : sockaddr_in)
    (len : Nat) (ht : t + 1 ≤ NO_WRAP) (hnew : ∀ p ∈ m, ¬ same_udp_sender addr p) :
    MapInv (map_assign m (-1000 - ((t + 1 : Nat) : Int))
      (new_udp_client addr len (-1000 - ((t + 1 : Nat) : Int)))) (t + 1) :=
  { keys_nodup := keys_assign_nodup _ _ h.keys_nodup
    fd_eq := fun p hp => by
      rcases mem_assign hp with h1 | h1
      · subst h1; rfl
      · exact h.fd_eq p h1.1
    tcp_range := fun p hp htcp => by
      rcases mem_assign hp with h1 | h1
      · subst h1; simp [new_udp_client] at htcp
      · exact h.tcp_range p h1.1 htcp
    udp_range := fun p hp hudp => by
      rcases mem_assign hp with h1 | h1
      · subst h1
        simp only
        omega
      · have := h.udp_range p h1.1 hudp
        omega
    udp_unique := fun p hp q hq hudp hsame => by
      rcases mem_assign hp with h1 | h1
      · rcases mem_assign hq with h2 | h2
        · rw [h1, h2]
        · subst h1
          exact absurd hsame (hnew q h2.1)
      · rcases mem_assign hq with h2 | h2
        · subst h2
          exact absurd ⟨hudp, hsame.2.1.symm, hsame.2.2.symm⟩ (hnew p h1.1)
        · exact h.udp_unique p h1.1 q h2.1 hudp hsame
    total_le := ht }

/-! ### What a returning handler leaves -/

theorem accept_returned {s s1 : EServer} {epoll_fd : Int} {a : AcceptReply}
    (h : (handle_tcp_connection s epoll_fd a).status = Status.returned s1) :
    0 ≤ a.client_fd ∧
    (s1 = { s with
          client_map :=
            map_erase (map_assign s.client_map a.client_fd (new_tcp_client a)) a.client_fd }
      ∨ s1 = { s with
          client_map := map_assign s.client_map a.client_fd (new_tcp_client a),
          total_connections := uint64_inc s.total_connections,
          current_connections := uint64_inc s.current_connections }) := by
  simp only [handle_tcp_connection] at h
  split at h
  · simp at h
  · rename_i hfd
    refine ⟨by omega, ?_⟩
    split at h
    · simp at h
    · split at h
      · left
        simp only [Status.returned.injEq] at h
        exact h.symm
      · right
        simp only [Status.returned.injEq] at h
        exact h.symm

theorem tcp_data_returned {s s1 : EServer} {epoll_fd fd : Int} {avail clock : Option Bytes}
    (h : (handle_tcp_data s epoll_fd fd avail clock).status = Status.returned s1) :
    s1 = s ∨ s1 = { s with client_map := map_erase s.client_map fd,
                           current_connections := uint64_dec s.current_connections } := by
  simp only [handle_tcp_data, tcp_teardown] at h
  split at h
  · split at h
    · split at h
      · left
        simp only [Status.returned.injEq] at h
        exact h.symm
      · simp at h
    · left
      simp only [Status.returned.injEq] at h
      exact h.symm
  · right
    split at h <;>
    · simp only [Status.returned.injEq] at h
      exact h.symm

theorem udp_data_returned {s s1 : EServer} {epoll_fd udp_socket : Int}
    {avail clock : Option Bytes} {addr : sockaddr_in} {len : Nat}
    (h : (handle_udp_data s epoll_fd udp_socket avail addr len clock).status
      = Status.returned s1) :
    s1 = s ∨ s1 = (udp_session s addr len).2 := by
  simp only [handle_udp_data] at h
  split at h
  · right
    split at h
    · split at h
      · simp only [Status.returned.injEq] at h
        exact h.symm
      · simp at h
    · simp only [Status.returned.injEq] at h
      exact h.symm
  · left
    simp only [Status.returned.injEq] at h
    exact h.symm

theorem udp_session_found {s : EServer} {addr : sockaddr_in} {k : Int} (len : Nat)
    (h : find_udp_client s.client_map addr = some k) : udp_session s addr len = (k, s) := by
  simp only [udp_session, h]

theorem udp_session_new {s : EServer} {addr : sockaddr_in} (len : Nat)
    (h : find_udp_client s.client_map addr = none) (ht : s.total_connections + 1 ≤ NO_WRAP) :
    udp_session s addr len
      = (-1000 - ((s.total_connections + 1 : Nat) : Int),
          { s with
            total_connections := s.total_connections + 1,
            current_connections := uint64_inc s.current_connections,
            client_map := map_assign s.client_map
              (-1000 - ((s.total_connections + 1 : Nat) : Int))
              (new_udp_client addr len (-1000 - ((s.total_connections + 1 : Nat) : Int))) }) := by
  have hlt := no_wrap_val
  have hinc : uint64_inc s.total_connections = s.total_connections + 1 :=
    uint64_inc_eq (by omega)
  simp only [udp_session, h, hinc, udp_fd_no_wrap _ ht]

theorem find_none {m : ClientMap} {addr : sockaddr_in} (h : find_udp_client m addr = none) :
    ∀ p ∈ m, ¬ same_udp_sender addr p := by
  induction m with
  | nil => exact fun _ hp => absurd hp (List.not_mem_nil _)
  | cons q rest ih =>
    simp only [find_udp_client] at h
    split at h
    · simp at h
    · rename_i hq
      intro p hp
      rcases List.mem_cons.mp hp with h1 | h1
      · exact h1 ▸ hq
      · exact ih h p h1

theorem find_some {m : ClientMap} {addr : sockaddr_in} {k : Int}
    (h : find_udp_client m addr = some k) : ∃ p ∈ m, same_udp_sender addr p ∧ p.1 = k := by
  induction m with
  | nil => simp [find_udp_client] at h
  | cons q rest ih =>
    simp only [find_udp_client] at h
    split at h
    · rename_i hq
      simp only [Option.some.injEq] at h
      exact ⟨q, List.mem_cons_self _ _, hq, h⟩
    · obtain ⟨p, hp, hs, hk⟩ := ih h
      exact ⟨p, List.mem_cons_of_mem _ hp, hs, hk⟩

theorem inv_session {s : EServer} (addr : sockaddr_in) (len : Nat) (h : Inv s)
    (hb : (udp_session s addr len).2.total_connections ≤ NO_WRAP) :
    Inv (udp_session s addr len).2 := by
  have hlt := no_wrap_val
  cases hf : find_udp_client s.client_map addr with
  | some k =>
    rw [udp_session_found len hf]
    exact h
  | none =>
    have hinc : uint64_inc s.total_connections = s.total_connections + 1 :=
      uint64_inc_eq (by have := h.total_le; omega)
    have ht : s.total_connections + 1 ≤ NO_WRAP := by
      simp only [udp_session, hf, hinc] at hb
      exact hb
    rw [udp_session_new len hf ht]
    exact MapInv.assign_udp h addr len ht (find_none hf)

theorem inv_step {s s1 : EServer} {e : Event} (h : Inv s)
    (hr : (e.handle s).status = Status.returned s1) (hb : s1.total_connections ≤ NO_WRAP) :
    Inv s1 := by
  have hlt := no_wrap_val
  cases e with
  | accept epoll_fd a =>
    obtain ⟨hfd, hs | hs⟩ := accept_returned hr
    · subst hs
      exact (MapInv.assign_tcp h a hfd).erase _
    · subst hs
      exact (MapInv.assign_tcp h a hfd).mono (by
        have := h.total_le
        simp only [uint64_inc]
        omega) hb
  | tcp_data epoll_fd fd avail clock =>
    rcases tcp_data_returned hr with hs | hs
    · subst hs
      exact h
    · subst hs
      exact MapInv.erase h fd
  | udp_data epoll_fd udp_socket avail addr len clock =>
    rcases udp_data_returned hr with hs | hs
    · subst hs
      exact h
    · subst hs
      exact inv_session addr len h hb

theorem inv_run {G : EServer → Event → Bool} {B : Nat} (hB : B ≤ NO_WRAP) (es : List Event) :
    ∀ {s s1 : EServer}, Inv s → run_guarded G B s es = some s1 → Inv s1 := by
  induction es with
  | nil =>
    intro s s1 h hr
    simp only [run_guarded, Option.some.injEq] at hr
    exact hr ▸ h
  | cons e es ih =>
    intro s s1 h hr
    simp only [run_guarded] at hr
    split at hr
    · split at hr
      · rename_i s2 hs2
        split at hr
        · rename_i hle
          exact ih (inv_step h hs2 (le_trans hle hB)) hr
        · simp at hr
      · simp at hr
    · simp at hr

theorem inv_new (events tcpPort udpPort : Nat) : Inv (EServer.new events tcpPort udpPort) :=
  MapInv.new

theorem inv_of_reachable {G : EServer → Event → Bool} {B : Nat} (hB : B ≤ NO_WRAP)
    {s : EServer} (h : ReachableWithin G B s) : Inv s := by
  obtain ⟨events, tcpPort, udpPort, es, hr⟩ := h
  exact inv_run hB es (inv_new events tcpPort udpPort) hr

theorem BasicInv.erase_key {m : ClientMap} (h : BasicInv m) (k : Int) :
    BasicInv (map_erase m k) :=
  { keys_nodup := keys_erase_nodup k h.keys_nodup
    fd_eq := fun p hp => h.fd_eq p (mem_erase.mp hp).1
    tcp_range := fun p hp => h.tcp_range p (mem_erase.mp hp).1 }

theorem BasicInv.assign_entry {m : ClientMap} (h : BasicInv m) (k : Int) (v : ClientData)
    (hfd : v.fd = k) (htcp : v.is_tcp = true → 0 ≤ k) : BasicInv (map_assign m k v) :=
  { keys_nodup := keys_assign_nodup _ _ h.keys_nodup
    fd_eq := fun p hp => by
      rcases mem_assign hp with h1 | h1
      · subst h1; exact hfd
      · exact h.fd_eq p h1.1
    tcp_range := fun p hp hp_tcp => by
      rcases mem_assign hp with h1 | h1
      · subst h1; exact htcp hp_tcp
      · exact h.tcp_range p h1.1 hp_tcp }

theorem basic_session {s : EServer} (addr : sockaddr_in) (len : Nat)
    (h : BasicInv s.client_map) : BasicInv (udp_session s addr len).2.client_map := by
  cases hf : find_udp_client s.client_map addr with
  | some k =>
    rw [udp_session_found len hf]
    exact h
  | none =>
    simp only [udp_session, hf]
    exact h.assign_entry _ _ rfl (fun htcp => by simp [new_udp_client] at htcp)

theorem basic_step {s s1 : EServer} {e : Event} (h : BasicInv s.client_map)
    (hr : (e.handle s).status = Status.returned s1) : BasicInv s1.client_map := by
  cases e with
  | accept epoll_fd a =>
    obtain ⟨hfd, hs | hs⟩ := accept_returned hr
    · subst hs
      exact (h.assign_entry a.client_fd (new_tcp_client a) rfl (fun _ => hfd)).erase_key _
    · subst hs
      exact h.assign_entry a.client_fd (new_tcp_client a) rfl (fun _ => hfd)
  | tcp_data epoll_fd fd avail clock =>
    rcases tcp_data_returned hr with hs | hs
    · subst hs
      exact h
    · subst hs
      exact h.erase_key fd
  | udp_data epoll_fd udp_socket avail addr len clock =>
    rcases udp_data_returned hr with hs | hs
    · subst hs
      exact h
    · subst hs
      exact basic_session addr len h

theorem basic_run (es : List Event) :
    ∀ {s s1 : EServer}, BasicInv s.client_map → run s es = some s1 →
      BasicInv s1.client_map := by
  induction es with
  | nil =>
    intro s s1 h hr
    simp only [run, Option.some.injEq] at hr
    exact hr ▸ h
  | cons e es ih =>
    intro s s1 h hr
    simp only [run] at hr
    split at hr
    · rename_i s2 hs2
      exact ih (basic_step h hs2) hr
    · simp at hr

theorem basic_of_reachable {s : EServer} (h : Reachable s) : BasicInv s.client_map := by
  obtain ⟨events, tcpPort, udpPort, es, hr⟩ := h
  have h0 : BasicInv (EServer.new events tcpPort udpPort).client_map :=
    { keys_nodup := List.nodup_nil
      fd_eq := fun _ hp => absurd hp (List.not_mem_nil _)
      tcp_range := fun _ hp => absurd hp (List.not_mem_nil _) }
  exact basic_run es h0 hr

/-- C7, as amended. In every state reached from a freshly constructed server
through accept, TCP-data and UDP-data handler calls (with no bound on their
number): the identifiers (`fd` fields) of the registry entries are pairwise
different, each equals the key of its entry, and every entry with
`is_tcp = true` has an identifier `>= 0`; a new UDP identifier is
`UDP_CLIENT_FD_BASE - total_connections` in `uint64_t` arithmetic, narrowed to
`int`. If moreover the calls kept `total_connections` at most `2^31 - 1000`,
every entry with `is_tcp = false` has an identifier below
`UDP_CLIENT_FD_BASE`. -/
theorem identifiers_without_wrap (s : EServer) (h : Reachable s) :
    (s.client_map.map (fun p => p.2.fd)).Nodup
    ∧ (∀ p ∈ s.client_map, p.2.fd = p.1)
    ∧ (∀ p ∈ s.client_map, p.2.is_tcp = true → 0 ≤ p.2.fd)
    ∧ (∀ addr len, find_udp_client s.client_map addr = none →
        (udp_session s addr len).1
          = uint64_to_int (uint64_sub (int_to_uint64 UDP_CLIENT_FD_BASE)
              (uint64_inc s.total_connections)))
    ∧ (ReachableWithin any_event NO_WRAP s →
        ∀ p ∈ s.client_map, p.2.is_tcp = false → p.2.fd < UDP_CLIENT_FD_BASE) := by
  have hb : BasicInv s.client_map := basic_of_reachable h
  refine ⟨?_, hb.fd_eq, ?_, ?_, ?_⟩
  · have : s.client_map.map (fun p => p.2.fd) = map_keys s.client_map :=
      List.map_congr_left (fun p hp => hb.fd_eq p hp)
    rw [this]
    exact hb.keys_nodup
  · intro p hp htcp
    rw [hb.fd_eq p hp]
    exact hb.tcp_range p hp htcp
  · intro addr len hf
    simp only [udp_session, hf]
  · intro hw p hp hudp
    have hinv : Inv s := inv_of_reachable (le_refl _) hw
    rw [hb.fd_eq p hp]
    exact (hinv.udp_range p hp hudp).2

/-- Witness of C7 as amended: the state after two accepts and one UDP session,
reached with `total_connections` at most `2^31 - 1000`. -/
theorem identifiers_without_wrap_witness :
    Reachable mixed_state
    ∧ ReachableWithin any_event NO_WRAP mixed_state
    ∧ (mixed_state.client_map.map (fun p => p.2.fd)).Nodup
    ∧ (∀ p ∈ mixed_state.client_map, p.2.fd = p.1)
    ∧ (∀ p ∈ mixed_state.client_map, p.2.is_tcp = true → 0 ≤ p.2.fd)
    ∧ (∀ addr len, find_udp_client mixed_state.client_map addr = none →
        (udp_session mixed_state addr len).1
          = uint64_to_int (uint64_sub (int_to_uint64 UDP_CLIENT_FD_BASE)
              (uint64_inc mixed_state.total_connections)))
    ∧ (∀ p ∈ mixed_state.client_map, p.2.is_tcp = false → p.2.fd < UDP_CLIENT_FD_BASE) :=
  have h : Reachable mixed_state := ⟨64, 12345, 12346, mixed_run, by decide⟩
  have hw : ReachableWithin any_event NO_WRAP mixed_state :=
    ⟨64, 12345, 12346, mixed_run, by decide⟩
  have r := identifiers_without_wrap mixed_state h
  ⟨h, hw, r.1, r.2.1, r.2.2.1, r.2.2.2.1, r.2.2.2.2 hw⟩

theorem run_churn (n : Nat) :
    ∀ (s : EServer) (es : List Event), (6 : Int) ∉ map_keys s.client_map →
      s.total_connections + n < 2 ^ 64 → s.current_connections + 1 < 2 ^ 64 →
      run s (churn n ++ es)
        = run { s with total_connections := s.total_connections + n } es := by
  induction n with
  | zero =>
    intro s es _ _ _
    rfl
  | succ n ih =>
    intro s es hkey ht hc
    have h1 := handle_tcp_connection_ok s 5 (sample_accept 6 50001) (by decide)
    have hmap : map_erase (map_assign s.client_map 6 (new_tcp_client (sample_accept 6 50001))) 6
        = s.client_map := by
      rw [assign_of_not_mem _ hkey]
      simp only [map_erase, if_true]
      exact erase_of_not_mem hkey
    have hinc : uint64_inc s.total_connections = s.total_connections + 1 := by
      simp only [uint64_inc]
      omega
    have hdec : uint64_dec (uint64_inc s.current_connections) = s.current_connections := by
      simp only [uint64_inc, uint64_dec]
      omega
    have hfd : (sample_accept 6 50001).client_fd = 6 := rfl
    simp only [churn, List.cons_append, run, Event.handle, h1, handle_tcp_data, sys_read,
      List.take_nil, List.length_nil, tcp_teardown, hfd, hmap, hinc, hdec]
    simp only [Nat.cast_zero, gt_iff_lt, lt_self_iff_false, if_false, if_true]
    have hih := ih { s with total_connections := s.total_connections + 1 } es hkey
      (by simp only; omega) hc
    have harith : s.total_connections + 1 + n = s.total_connections + (n + 1) := by omega
    simp only [harith] at hih
    exact hih

/-- Counterexample to C7: 2147482648 connect/close rounds followed by one
datagram are handler calls that all return, and they lead to a state whose only
registry entry has `is_tcp = false` and the identifier 2147483647, which is
neither below `UDP_CLIENT_FD_BASE` nor negative. -/
theorem udp_identifier_wraps :
    run (EServer.new 64 12345 12346) wrap_run = some wrapped_state
    ∧ Reachable wrapped_state
    ∧ ∃ p ∈ wrapped_state.client_map,
        p.2.is_tcp = false ∧ ¬ p.2.fd < UDP_CLIENT_FD_BASE ∧ 0 ≤ p.2.fd := by
  have h : run (EServer.new 64 12345 12346) wrap_run = some wrapped_state := by
    simp only [wrap_run]
    rw [run_churn 2147482648 _ _ (by simp [EServer.new, map_keys]) (by simp [EServer.new])
      (by simp [EServer.new])]
    decide
  exact ⟨h, ⟨64, 12345, 12346, wrap_run, h⟩,
    (2147483647, new_udp_client sample_sender 16 2147483647), by decide, by decide, by decide,
    by decide⟩

/-- Witness of C2: three accepts on descriptors 6, 7 and 8. -/
theorem stats_after_accepts_witness :
    ∃ s, run (EServer.new 64 12345 12346) (three_accepts.map (Event.accept 5)) = some s
      ∧ s.total_connections = three_accepts.length
      ∧ s.current_connections = three_accepts.length
      ∧ handle_tcp_data s 5 7 (some (str "/stats")) none
        = ⟨[Syscall.send 7 (str ("Total connections: " ++ toString three_accepts.length
              ++ ", Current connections: " ++ toString three_accepts.length ++ "\n"))],
            Status.returned s⟩ :=
  stats_after_accepts 64 12345 12346 5 7 three_accepts none (by decide) (by decide) (by decide)

theorem three_peers_stats :
    run (EServer.new 64 12345 12346) (three_accepts.map (Event.accept 5)) = some three_peers
    ∧ handle_tcp_data three_peers 5 7 (some (str "/stats")) none
      = ⟨[Syscall.send 7 (str "Total connections: 3, Current connections: 3\n")],
          Status.returned three_peers⟩ := by
  decide

/-! ### Counter/registry agreement -/

theorem length_assign_of_not_mem {m : ClientMap} {k : Int} (v : ClientData)
    (h : k ∉ map_keys m) : (map_assign m k v).length = m.length + 1 := by
  rw [assign_of_not_mem v h, List.length_cons]

theorem erase_assign_of_not_mem {m : ClientMap} {k : Int} (v : ClientData)
    (h : k ∉ map_keys m) : map_erase (map_assign m k v) k = m := by
  rw [assign_of_not_mem v h]
  simp only [map_erase, if_true]
  exact erase_of_not_mem h

theorem session_fresh {s : EServer} (addr : sockaddr_in) (len : Nat) (h : Inv s)
    (hf : find_udp_client s.client_map addr = none)
    (ht : s.total_connections + 1 ≤ NO_WRAP) :
    (udp_session s addr len).1 ∉ map_keys s.client_map := by
  rw [udp_session_new len hf ht]
  exact MapInv.not_mem_of_lt h (by push_cast; omega)

theorem agree_step {s s1 : EServer} {e : Event} (h : Agree s)
    (hg : registry_guard s e = true)
    (hr : (e.handle s).status = Status.returned s1)
    (hb : s1.total_connections ≤ NO_WRAP) : Agree s1 := by
  have hlt := no_wrap_val
  obtain ⟨hinv, hcur, hle⟩ := h
  have htot := hinv.total_le
  refine ⟨inv_step hinv hr hb, ?_⟩
  cases e with
  | accept epoll_fd a =>
    have hkey : a.client_fd ∉ map_keys s.client_map := by
      simpa [registry_guard] using hg
    obtain ⟨_, hs | hs⟩ := accept_returned hr
    · subst hs
      simp only [erase_assign_of_not_mem _ hkey]
      exact ⟨hcur, hle⟩
    · subst hs
      simp only [length_assign_of_not_mem _ hkey, uint64_inc]
      omega
  | tcp_data epoll_fd fd avail clock =>
    have hkey : fd ∈ map_keys s.client_map := by
      simpa [registry_guard] using hg
    rcases tcp_data_returned hr with hs | hs
    · subst hs
      exact ⟨hcur, hle⟩
    · subst hs
      have := length_erase_of_mem hinv.keys_nodup hkey
      simp only [uint64_dec]
      omega
  | udp_data epoll_fd udp_socket avail addr len clock =>
    rcases udp_data_returned hr with hs | hs
    · subst hs
      exact ⟨hcur, hle⟩
    · subst hs
      cases hf : find_udp_client s.client_map addr with
      | some k =>
        rw [udp_session_found len hf]
        exact ⟨hcur, hle⟩
      | none =>
        have hinc : uint64_inc s.total_connections = s.total_connections + 1 :=
          uint64_inc_eq (by omega)
        have ht : s.total_connections + 1 ≤ NO_WRAP := by
          simp only [udp_session, hf, hinc] at hb
          exact hb
        have hfresh := session_fresh addr len hinv hf ht
        rw [udp_session_new len hf ht] at hfresh ⊢
        simp only [length_assign_of_not_mem _ hfresh, uint64_inc]
        omega

theorem agree_run {B : Nat} (hB : B ≤ NO_WRAP) (es : List Event) :
    ∀ {s s1 : EServer}, Agree s → run_guarded registry_guard B s es = some s1 → Agree s1 := by
  induction es with
  | nil =>
    intro s s1 h hr
    simp only [run_guarded, Option.some.injEq] at hr
    exact hr ▸ h
  | cons e es ih =>
    intro s s1 h hr
    simp only [run_guarded] at hr
    split at hr
    · rename_i hg
      split at hr
      · rename_i s2 hs2
        split at hr
        · rename_i hle
          exact ih (agree_step h hg hs2 (le_trans hle hB)) hr
        · simp at hr
      · simp at hr
    · simp at hr

theorem total_le_of_run {G : EServer → Event → Bool} {B : Nat} (es : List Event) :
    ∀ {s s1 : EServer}, s.total_connections ≤ B → run_guarded G B s es = some s1 →
      s1.total_connections ≤ B := by
  induction es with
  | nil =>
    intro s s1 h hr
    simp only [run_guarded, Option.some.injEq] at hr
    exact hr ▸ h
  | cons e es ih =>
    intro s s1 h hr
    simp only [run_guarded] at hr
    split at hr
    · split at hr
      · split at hr
        · rename_i hle
          exact ih hle hr
        · simp at hr
      · simp at hr
    · simp at hr

/-- C9 (counter/registry agreement). In every state reached from a freshly
constructed server through handler calls in which `accept` gives a
non-negative descriptor that is not a key of the registry, `handle_tcp_data` is
called only for keys of the registry, and `total_connections` stays below
`2^31 - 1000`: `current_connections` is the number of registry entries and at
most `total_connections`, and the identifier a datagram of a new sender would
get is not a key of the registry. -/
theorem counters_agree_with_registry (s : EServer)
    (h : ReachableWithin registry_guard (NO_WRAP - 1) s) :
    s.current_connections = s.client_map.length
    ∧ s.current_connections ≤ s.total_connections
    ∧ s.total_connections < 2 ^ 31 - 1000
    ∧ (∀ addr len, find_udp_client s.client_map addr = none →
        (udp_session s addr len).1 ∉ map_keys s.client_map) := by
  have hlt := no_wrap_val
  obtain ⟨events, tcpPort, udpPort, es, hr⟩ := h
  have h0 : Agree (EServer.new events tcpPort udpPort) :=
    ⟨inv_new events tcpPort udpPort, rfl, le_refl _⟩
  obtain ⟨hinv, hcur, hle⟩ := agree_run (Nat.sub_le _ _) es h0 hr
  have htot : s.total_connections ≤ NO_WRAP - 1 :=
    total_le_of_run es (Nat.zero_le _) hr
  refine ⟨hcur, hle, by omega, ?_⟩
  intro addr len hf
  exact session_fresh addr len hinv hf (by omega)

/-- Witness of C9: the state after two accepts and one UDP session. -/
theorem counters_agree_with_registry_witness :
    ReachableWithin registry_guard (NO_WRAP - 1) mixed_state
    ∧ mixed_state.current_connections = mixed_state.client_map.length
    ∧ mixed_state.current_connections ≤ mixed_state.total_connections
    ∧ mixed_state.total_connections < 2 ^ 31 - 1000
    ∧ (∀ addr len, find_udp_client mixed_state.client_map addr = none →
        (udp_session mixed_state addr len).1 ∉ map_keys mixed_state.client_map) :=
  have h : ReachableWithin registry_guard (NO_WRAP - 1) mixed_state :=
    ⟨64, 12345, 12346, mixed_run, by decide⟩
  ⟨h, counters_agree_with_registry mixed_state h⟩

/-! ### UDP sessions -/

theorem find_cons (p : Int × ClientData) (rest : ClientMap) (addr : sockaddr_in) :
    find_udp_client (p :: rest) addr
      = if same_udp_sender addr p then some p.1 else find_udp_client rest addr := by
  simp only [find_udp_client, same_udp_sender]

theorem find_erase {m : ClientMap} {k : Int} {addr : sockaddr_in}
    (h : ∀ p ∈ m, p.1 = k → ¬ same_udp_sender addr p) :
    find_udp_client (map_erase m k) addr = find_udp_client m addr := by
  induction m with
  | nil => rfl
  | cons q rest ih =>
    have ih1 := ih (fun p hp => h p (List.mem_cons_of_mem _ hp))
    by_cases hq : q.1 = k
    · have hn := h q (List.mem_cons_self _ _) hq
      simp only [map_erase, hq, if_true, find_cons, hn, if_false, ih1]
    · simp only [map_erase, hq, if_false, find_cons, ih1]

theorem find_replace {m : ClientMap} {k : Int} {v : ClientData} {addr : sockaddr_in}
    (h : ∀ p ∈ m, p.1 = k → ¬ same_udp_sender addr p) (hv : ¬ same_udp_sender addr (k, v)) :
    find_udp_client (m.map (fun p => if p.1 = k then (p.1, v) else p)) addr
      = find_udp_client m addr := by
  induction m with
  | nil => rfl
  | cons q rest ih =>
    have ih1 := ih (fun p hp => h p (List.mem_cons_of_mem _ hp))
    by_cases hq : q.1 = k
    · have hn := h q (List.mem_cons_self _ _) hq
      have hv1 : ¬ same_udp_sender addr (q.1, v) := hq ▸ hv
      simp only [List.map_cons, hq, if_true, find_cons, hn, if_false, ih1]
      rw [if_neg hv]
    · simp only [List.map_cons, hq, if_false, find_cons, ih1]

theorem find_assign {m : ClientMap} {k : Int} {v : ClientData} {addr : sockaddr_in}
    (h : ∀ p ∈ m, p.1 = k → ¬ same_udp_sender addr p) (hv : ¬ same_udp_sender addr (k, v)) :
    find_udp_client (map_assign m k v) addr = find_udp_client m addr := by
  simp only [map_assign]
  split
  · exact find_replace h hv
  · rw [find_cons, if_neg hv]

theorem tcp_of_nonneg_key {m : ClientMap} {t : Nat} (h : MapInv m t) {p : Int × ClientData}
    (hp : p ∈ m) (hk : 0 ≤ p.1) (addr : sockaddr_in) : ¬ same_udp_sender addr p := by
  intro hs
  have := h.udp_range p hp hs.1
  omega

theorem udp_data_returned_nonempty {s s1 : EServer} {epoll_fd udp_socket : Int}
    {d : Bytes} {clock : Option Bytes} {addr : sockaddr_in} {len : Nat} (hd : d ≠ [])
    (h : (handle_udp_data s epoll_fd udp_socket (some d) addr len clock).status
      = Status.returned s1) :
    s1 = (udp_session s addr len).2 := by
  have hpos : ((d.take 1023).length : Int) > 0 := by
    cases d with
    | nil => exact absurd rfl hd
    | cons b rest =>
      simp only [List.take_succ_cons, List.length_cons]
      omega
  simp only [handle_udp_data, sys_read] at h
  rw [if_pos hpos] at h
  split at h
  · split at h
    · simp only [Status.returned.injEq] at h
      exact h.symm
    · simp at h
  · simp only [Status.returned.injEq] at h
    exact h.symm

theorem find_after_session {s : EServer} (addr : sockaddr_in) (len : Nat) (h : Inv s)
    (hb : (udp_session s addr len).2.total_connections ≤ NO_WRAP) :
    find_udp_client (udp_session s addr len).2.client_map addr
      = some (udp_session s addr len).1 := by
  have hlt := no_wrap_val
  cases hf : find_udp_client s.client_map addr with
  | some k =>
    rw [udp_session_found len hf]
    exact hf
  | none =>
    have hinc : uint64_inc s.total_connections = s.total_connections + 1 :=
      uint64_inc_eq (by have := h.total_le; omega)
    have ht : s.total_connections + 1 ≤ NO_WRAP := by
      simp only [udp_session, hf, hinc] at hb
      exact hb
    have hfresh := session_fresh addr len h hf ht
    rw [udp_session_new len hf ht] at hfresh ⊢
    simp only [assign_of_not_mem _ hfresh, find_cons]
    rw [if_pos ⟨rfl, rfl, rfl⟩]

theorem stable_step {s s1 : EServer} {e : Event} {sender : sockaddr_in} {k : Int}
    (h : Inv s) (hf : find_udp_client s.client_map sender = some k)
    (hg : other_peer sender s e = true)
    (hr : (e.handle s).status = Status.returned s1)
    (hb : s1.total_connections ≤ NO_WRAP) :
    find_udp_client s1.client_map sender = some k := by
  have hlt := no_wrap_val
  cases e with
  | accept epoll_fd a =>
    obtain ⟨hfd, hs | hs⟩ := accept_returned hr
    · subst hs
      have hv : ¬ same_udp_sender sender (a.client_fd, new_tcp_client a) := by
        simp [same_udp_sender, new_tcp_client]
      have h1 : ∀ p ∈ s.client_map, p.1 = a.client_fd → ¬ same_udp_sender sender p :=
        fun p hp hk => tcp_of_nonneg_key h hp (hk ▸ hfd) sender
      simp only
      rw [find_erase, find_assign h1 hv]
      · exact hf
      · intro p hp hk
        rcases mem_assign hp with h2 | h2
        · exact h2 ▸ hv
        · exact absurd hk h2.2
    · subst hs
      have hv : ¬ same_udp_sender sender (a.client_fd, new_tcp_client a) := by
        simp [same_udp_sender, new_tcp_client]
      have h1 : ∀ p ∈ s.client_map, p.1 = a.client_fd → ¬ same_udp_sender sender p :=
        fun p hp hk => tcp_of_nonneg_key h hp (hk ▸ hfd) sender
      simp only
      rw [find_assign h1 hv]
      exact hf
  | tcp_data epoll_fd fd avail clock =>
    have hfd : 0 ≤ fd := by simpa [other_peer] using hg
    rcases tcp_data_returned hr with hs | hs
    · subst hs
      exact hf
    · subst hs
      simp only
      rw [find_erase (fun p hp hk => tcp_of_nonneg_key h hp (hk ▸ hfd) sender)]
      exact hf
  | udp_data epoll_fd udp_socket avail addr len clock =>
    have hne : ¬ (addr.s_addr = sender.s_addr ∧ addr.sin_port = sender.sin_port) := by
      simp only [other_peer, Bool.not_eq_true', decide_eq_false_iff_not] at hg
      exact hg
    rcases udp_data_returned hr with hs | hs
    · subst hs
      exact hf
    · subst hs
      cases hfa : find_udp_client s.client_map addr with
      | some j =>
        rw [udp_session_found len hfa]
        exact hf
      | none =>
        have hinc : uint64_inc s.total_connections = s.total_connections + 1 :=
          uint64_inc_eq (by have := h.total_le; omega)
        have ht : s.total_connections + 1 ≤ NO_WRAP := by
          simp only [udp_session, hfa, hinc] at hb
          exact hb
        have hfresh := session_fresh addr len h hfa ht
        rw [udp_session_new len hfa ht] at hfresh ⊢
        simp only [assign_of_not_mem _ hfresh, find_cons]
        rw [if_neg (fun hsame => hne ⟨hsame.2.1, hsame.2.2⟩)]
        exact hf

/-- The search loop of `handle_udp_data` does not depend on the iteration order
of `client_map`: in a state that satisfies the registry invariant, every
reordering of the entries gives the same result. -/
theorem lookup_order_free {s : EServer} (h : Inv s) (m : ClientMap)
    (hm : m.Perm s.client_map) (addr : sockaddr_in) :
    find_udp_client m addr = find_udp_client s.client_map addr := by
  cases h1 : find_udp_client m addr with
  | none =>
    cases h0 : find_udp_client s.client_map addr with
    | none => rfl
    | some k =>
      obtain ⟨p, hp, hs, _⟩ := find_some h0
      exact absurd hs (find_none h1 p (hm.mem_iff.mpr hp))
  | some j =>
    obtain ⟨q, hq, hsq, hj⟩ := find_some h1
    cases h0 : find_udp_client s.client_map addr with
    | none => exact absurd hsq (find_none h0 q (hm.mem_iff.mp hq))
    | some k =>
      obtain ⟨p, hp, hsp, hk⟩ := find_some h0
      have hpq : p = q := h.udp_unique p hp q (hm.mem_iff.mp hq) hsp.1
        ⟨hsq.1, hsq.2.1.trans hsp.2.1.symm, hsq.2.2.trans hsp.2.2.symm⟩
      rw [← hj, ← hk, hpq]

theorem stable_run {sender : sockaddr_in} {k : Int} (es : List Event) :
    ∀ {s s1 : EServer}, Inv s → find_udp_client s.client_map sender = some k →
      run_guarded (other_peer sender) NO_WRAP s es = some s1 →
      Inv s1 ∧ find_udp_client s1.client_map sender = some k := by
  induction es with
  | nil =>
    intro s s1 h hf hr
    simp only [run_guarded, Option.some.injEq] at hr
    exact hr ▸ ⟨h, hf⟩
  | cons e es ih =>
    intro s s1 h hf hr
    simp only [run_guarded] at hr
    split at hr
    · rename_i hg
      split at hr
      · rename_i s2 hs2
        split at hr
        · rename_i hle
          exact ih (inv_step h hs2 hle) (stable_step h hf hg hs2 hle) hr
        · simp at hr
      · simp at hr
    · simp at hr

/-- C4, as amended. Take a state reached from a freshly constructed server
through handler calls that keep `total_connections` at most `2^31 - 1000`, and
a sender (address, port). If `handle_udp_data` handles a non-empty datagram of
that sender and returns, then any number of events of other peers are handled
(accepts, data on non-negative descriptors, datagrams of other senders; all
returning, `total_connections` still at most `2^31 - 1000`), and then
`handle_udp_data` handles a second non-empty datagram of the sender and returns,
then both datagrams resolve to the same synthetic identifier, and the second
leaves the whole state unchanged: `total_connections`, `current_connections`
and the keys of the registry. -/
theorem udp_session_stable (s s1 s2 s3 : EServer) (sender : sockaddr_in) (len1 len2 : Nat)
    (d1 d2 : Bytes) (epoll_fd udp_socket : Int) (clock1 clock2 : Option Bytes)
    (between : List Event)
    (hs : ReachableWithin any_event NO_WRAP s)
    (hd1 : d1 ≠ []) (hd2 : d2 ≠ [])
    (h1 : (handle_udp_data s epoll_fd udp_socket (some d1) sender len1 clock1).status
      = Status.returned s1)
    (hw : s1.total_connections ≤ NO_WRAP)
    (hb : run_guarded (other_peer sender) NO_WRAP s1 between = some s2)
    (h2 : (handle_udp_data s2 epoll_fd udp_socket (some d2) sender len2 clock2).status
      = Status.returned s3) :
    s1 = (udp_session s sender len1).2
    ∧ s3 = (udp_session s2 sender len2).2
    ∧ (udp_session s2 sender len2).1 = (udp_session s sender len1).1
    ∧ find_udp_client s2.client_map sender = some (udp_session s sender len1).1
    ∧ s3.total_connections = s2.total_connections
    ∧ s3.current_connections = s2.current_connections
    ∧ map_keys s3.client_map = map_keys s2.client_map
    ∧ s3 = s2 := by
  have hinv : Inv s := inv_of_reachable (le_refl _) hs
  have e1 := udp_data_returned_nonempty hd1 h1
  have e3 := udp_data_returned_nonempty hd2 h2
  have hw1 : (udp_session s sender len1).2.total_connections ≤ NO_WRAP := e1 ▸ hw
  have hinv1 : Inv s1 := e1 ▸ inv_session sender len1 hinv hw1
  have hf1 : find_udp_client s1.client_map sender = some (udp_session s sender len1).1 := by
    rw [e1]
    exact find_after_session sender len1 hinv hw1
  obtain ⟨_, hf2⟩ := stable_run between hinv1 hf1 hb
  have hses := udp_session_found len2 hf2
  have e32 : s3 = s2 := by
    rw [e3, hses]
  refine ⟨e1, e3, ?_, hf2, ?_, ?_, ?_, e32⟩
  · rw [hses]
  · rw [e32]
  · rw [e32]
  · rw [e32]

/-- Witness of C4 as amended: the sample sender's two datagrams to the server
of `main`, with an accept, another sender's datagram and a disconnect in
between. -/
theorem udp_session_stable_witness :
    session_state = (udp_session (EServer.new 64 12345 12346) sample_sender 16).2
    ∧ later_state = (udp_session later_state sample_sender 16).2
    ∧ (udp_session later_state sample_sender 16).1
        = (udp_session (EServer.new 64 12345 12346) sample_sender 16).1
    ∧ find_udp_client later_state.client_map sample_sender
        = some (udp_session (EServer.new 64 12345 12346) sample_sender 16).1
    ∧ later_state.total_connections = later_state.total_connections
    ∧ later_state.current_connections = later_state.current_connections
    ∧ map_keys later_state.client_map = map_keys later_state.client_map
    ∧ later_state = later_state :=
  udp_session_stable (EServer.new 64 12345 12346) session_state later_state later_state
    sample_sender 16 16 [104, 105] [47, 115, 116, 97, 116, 115] 5 4 none none between_run
    ⟨64, 12345, 12346, [], rfl⟩ (by decide) (by decide) (by decide) (by decide) (by decide)
    (by decide)

/-- Counterexample to C4: the sender's first datagram is empty (`recvfrom`
gives 0). The handler returns the fresh state unchanged, with no entry for the
sender, and the second datagram of the same sender creates the entry: both
counters go from 0 to 1 and the key -1001 appears. -/
theorem empty_datagram_opens_no_session :
    handle_udp_data (EServer.new 64 12345 12346) 5 4 (some []) sample_sender 16 none
      = ⟨[], Status.returned (EServer.new 64 12345 12346)⟩
    ∧ find_udp_client (EServer.new 64 12345 12346).client_map sample_sender = none
    ∧ (handle_udp_data (EServer.new 64 12345 12346) 5 4 (some [104, 105]) sample_sender 16
        none).status = Status.returned session_state
    ∧ session_state.total_connections ≠ (EServer.new 64 12345 12346).total_connections
    ∧ session_state.current_connections ≠ (EServer.new 64 12345 12346).current_connections
    ∧ map_keys session_state.client_map ≠ map_keys (EServer.new 64 12345 12346).client_map := by
  decide

theorem run_cons_returned {s s1 : EServer} {e : Event} (es : List Event)
    (h : (e.handle s).status = Status.returned s1) : run s (e :: es) = run s1 es := by
  simp only [run, h]

theorem mem_churn {n : Nat} {e : Event} (h : e ∈ churn n) :
    e = Event.accept 5 (sample_accept 6 50001) ∨ e = Event.tcp_data 5 6 (some []) none := by
  induction n with
  | zero => simp [churn] at h
  | succ n ih =>
    simp only [churn, List.mem_cons] at h
    rcases h with h | h | h
    · exact Or.inl h
    · exact Or.inr h
    · exact ih h

/-- The bound on `total_connections` in C4 as amended is needed: after the
sample sender's first datagram (identifier -1001), `2^32 - 1` connect/close
rounds of a TCP peer and one datagram of another sender are events of other
peers, all handled normally, after which the key -1001 holds the other sender's
entry; the sample sender's next datagram resolves to the new identifier -1002
and increments `total_connections`. -/
theorem session_overwritten_after_wrap :
    run (EServer.new 64 12345 12346) overwrite_run = some overwritten_state
    ∧ (∀ e ∈ overwrite_run.tail, other_peer sample_sender overwritten_state e = true)
    ∧ find_udp_client overwritten_state.client_map sample_sender = none
    ∧ (udp_session (EServer.new 64 12345 12346) sample_sender 16).1 = -1001
    ∧ (udp_session overwritten_state sample_sender 16).1 = -1002
    ∧ (udp_session overwritten_state sample_sender 16).2.total_connections = 4294967298 := by
  have h : run (EServer.new 64 12345 12346) overwrite_run = some overwritten_state := by
    have h1 : (Event.handle (EServer.new 64 12345 12346)
        (Event.udp_data 5 4 (some [104, 105]) sample_sender 16 none)).status
        = Status.returned session_state := by decide
    unfold overwrite_run
    rw [run_cons_returned _ h1, run_churn 4294967295 _ _ (by decide) (by decide) (by decide)]
    decide
  refine ⟨h, ?_, by decide, by decide, by decide, by decide⟩
  intro e he
  unfold overwrite_run at he
  rw [List.tail_cons, List.mem_append] at he
  rcases he with he | he
  · rcases mem_churn he with h1 | h1 <;> subst h1 <;> decide
  · rw [List.mem_singleton] at he
    subst he
    decide

end EpollServer
